import Mathlib

set_option maxHeartbeats 1000000
set_option maxRecDepth 8000

namespace AgentDemo

/- ===================================================================
   JavaScript string primitives (model)
   =================================================================== -/

/-- Model of the whitespace class used by JS `String.prototype.trim`
(ASCII whitespace plus NBSP). -/
def jsWhitespace (c : Char) : Bool :=
  c == ' ' || c == '\t' || c == '\n' || c == '\r' || c == '\x0b' || c == '\x0c' || c == '\u00A0'

def trimChars (l : List Char) : List Char :=
  ((l.dropWhile jsWhitespace).reverse.dropWhile jsWhitespace).reverse

/-- Model of JS `String.prototype.trim`. -/
def jsTrim (s : String) : String := String.mk (trimChars s.data)

/-- JS `a || b` for `a : string | undefined` (falls through on `undefined`
and on the empty string, which is falsy). -/
def jsOrS (a : Option String) (d : String) : String :=
  match a with
  | some s => if s == "" then d else s
  | none => d

/-- JS truthiness of `a : string | undefined`. -/
def truthyS (a : Option String) : Bool :=
  match a with
  | some s => !(s == "")
  | none => false

/- ===================================================================
   Data model (src/src/lib/types.ts)
   =================================================================== -/

/-- `VideoItem` from `types.ts`; optional string fields are `Option`,
timestamps are `Nat` (JS epoch-millisecond numbers). -/
structure VideoItem where
  id : String
  url : String
  videoId : Option String
  title : Option String
  thumbnailUrl : Option String
  sourceTitle : Option String
  tags : List String
  addedAt : Nat
deriving Repr, DecidableEq

/-- `Playlist` from `types.ts`. -/
structure Playlist where
  id : String
  name : String
  createdAt : Nat
  items : List VideoItem
deriving Repr, DecidableEq

/-- `StoredStateV1` from `types.ts` (the `CollectionState` of the spec). -/
structure StoredStateV1 where
  version : Nat
  selectedPlaylistId : String
  playlists : List Playlist
deriving Repr, DecidableEq

/- ===================================================================
   State Store operations (src/src/lib/share.ts part 3, the storage
   module: upsertPlaylist, deletePlaylist, addVideoToPlaylist,
   removeVideoFromPlaylist, updateVideoInPlaylist, moveVideo)
   =================================================================== -/

/-- Replace the first list element whose `id` equals `q.id` by `q`;
`none` when no element matches.  This is the recursive rendering of the
`findIndex` / copy / `playlists[idx] = playlist` sequence in
`upsertPlaylist`. -/
def replaceFirst : List Playlist → Playlist → Option (List Playlist)
  | [], _ => none
  | p :: t, q => if p.id == q.id then some (q :: t) else (replaceFirst t q).map (p :: ·)

/-- `upsertPlaylist`: replace by id if present, else `unshift` (prepend). -/
def upsertPlaylist (state : StoredStateV1) (playlist : Playlist) : StoredStateV1 :=
  match replaceFirst state.playlists playlist with
  | some l => { state with playlists := l }
  | none => { state with playlists := (playlist :: state.playlists) }

/-- `defaultState()` from the storage module; `freshId` models the
`newId("pl")` call and `now` models `Date.now()`. -/
def defaultState (freshId : String) (now : Nat) : StoredStateV1 :=
  { version := 1
    selectedPlaylistId := freshId
    playlists := [{ id := freshId, name := "즐겨찾기", createdAt := now, items := [] }] }

/-- `deletePlaylist`: filter out by id; reseed via `defaultState` when the
result would be empty; fall selection back to the first remaining playlist
when the selected playlist was removed. -/
def deletePlaylist (freshId : String) (now : Nat) (state : StoredStateV1)
    (playlistId : String) : StoredStateV1 :=
  match state.playlists.filter (fun p => p.id != playlistId) with
  | [] => defaultState freshId now
  | p0 :: rest =>
    { state with
      playlists := (p0 :: rest)
      selectedPlaylistId :=
        if state.selectedPlaylistId == playlistId then p0.id else state.selectedPlaylistId }

/-- The dedup key `v.videoId || v.url` used for items already in a playlist. -/
def dedupKey (v : VideoItem) : String := jsOrS v.videoId v.url

/-- `addVideoToPlaylist`: no-op when the playlist is missing or an item
with the same dedup key exists; otherwise prepend. -/
def addVideoToPlaylist (state : StoredStateV1) (playlistId : String)
    (item : VideoItem) : StoredStateV1 :=
  match state.playlists.find? (fun p => p.id == playlistId) with
  | none => state
  | some pl =>
    let normalizedUrl := jsTrim item.url
    let videoKey := jsOrS item.videoId normalizedUrl
    if pl.items.any (fun v => dedupKey v == videoKey) then state
    else upsertPlaylist state { pl with items := (item :: pl.items) }

/-- `removeVideoFromPlaylist`: filter out by item id; no-op when the
playlist is missing. -/
def removeVideoFromPlaylist (state : StoredStateV1) (playlistId : String)
    (videoItemId : String) : StoredStateV1 :=
  match state.playlists.find? (fun p => p.id == playlistId) with
  | none => state
  | some pl =>
    upsertPlaylist state { pl with items := pl.items.filter (fun v => v.id != videoItemId) }

/-- A `Partial<VideoItem>` patch; `some` marks a property present in the
patch object (for `Option`-typed source fields the value itself is another
`Option`, so an explicit `undefined` in the patch is representable). -/
structure VideoItemPatch where
  id : Option String := none
  url : Option String := none
  videoId : Option (Option String) := none
  title : Option (Option String) := none
  thumbnailUrl : Option (Option String) := none
  sourceTitle : Option (Option String) := none
  tags : Option (List String) := none
  addedAt : Option Nat := none
deriving Repr, DecidableEq

/-- JS spread `{ ...v, ...patch }`. -/
def applyPatch (v : VideoItem) (p : VideoItemPatch) : VideoItem :=
  { id := p.id.getD v.id
    url := p.url.getD v.url
    videoId := p.videoId.getD v.videoId
    title := p.title.getD v.title
    thumbnailUrl := p.thumbnailUrl.getD v.thumbnailUrl
    sourceTitle := p.sourceTitle.getD v.sourceTitle
    tags := p.tags.getD v.tags
    addedAt := p.addedAt.getD v.addedAt }

/-- `updateVideoInPlaylist`: shallow-merge the patch onto the matching
item; no-op when the playlist is missing. -/
def updateVideoInPlaylist (state : StoredStateV1) (playlistId : String)
    (videoItemId : String) (patch : VideoItemPatch) : StoredStateV1 :=
  match state.playlists.find? (fun p => p.id == playlistId) with
  | none => state
  | some pl =>
    let items := pl.items.map (fun v => if v.id == videoItemId then applyPatch v patch else v)
    upsertPlaylist state { pl with items := items }

/-- `moveVideo`: remove from the source playlist then add to the
destination through `addVideoToPlaylist`. -/
def moveVideo (state : StoredStateV1) (fromPlaylistId toPlaylistId : String)
    (videoItemId : String) : StoredStateV1 :=
  if fromPlaylistId == toPlaylistId then state
  else
    match state.playlists.find? (fun p => p.id == fromPlaylistId),
          state.playlists.find? (fun p => p.id == toPlaylistId) with
    | some _from, some _to =>
      match _from.items.find? (fun v => v.id == videoItemId) with
      | none => state
      | some item =>
        addVideoToPlaylist (removeVideoFromPlaylist state fromPlaylistId videoItemId)
          toPlaylistId item
    | _, _ => state

/- ===================================================================
   Reference-identity instrumented variants.
   In JS the only way an operation's result is the very same object as
   the input state is a literal `return state;`; every `{ ...state, _ }`
   or `defaultState()` return allocates a fresh object.  The `R`
   variants return the state paired with a flag that is `true` exactly
   on the `return state;` paths of the source.
   =================================================================== -/

def upsertPlaylistR (state : StoredStateV1) (playlist : Playlist) : Bool × StoredStateV1 :=
  (false, upsertPlaylist state playlist)

def deletePlaylistR (freshId : String) (now : Nat) (state : StoredStateV1)
    (playlistId : String) : Bool × StoredStateV1 :=
  (false, deletePlaylist freshId now state playlistId)

def addVideoToPlaylistR (state : StoredStateV1) (playlistId : String)
    (item : VideoItem) : Bool × StoredStateV1 :=
  match state.playlists.find? (fun p => p.id == playlistId) with
  | none => (true, state)
  | some pl =>
    let videoKey := jsOrS item.videoId (jsTrim item.url)
    if pl.items.any (fun v => dedupKey v == videoKey) then (true, state)
    else (false, upsertPlaylist state { pl with items := (item :: pl.items) })

def removeVideoFromPlaylistR (state : StoredStateV1) (playlistId : String)
    (videoItemId : String) : Bool × StoredStateV1 :=
  match state.playlists.find? (fun p => p.id == playlistId) with
  | none => (true, state)
  | some pl =>
    (false, upsertPlaylist state { pl with items := pl.items.filter (fun v => v.id != videoItemId) })

def updateVideoInPlaylistR (state : StoredStateV1) (playlistId : String)
    (videoItemId : String) (patch : VideoItemPatch) : Bool × StoredStateV1 :=
  match state.playlists.find? (fun p => p.id == playlistId) with
  | none => (true, state)
  | some pl =>
    let items := pl.items.map (fun v => if v.id == videoItemId then applyPatch v patch else v)
    (false, upsertPlaylist state { pl with items := items })

def moveVideoR (state : StoredStateV1) (fromPlaylistId toPlaylistId : String)
    (videoItemId : String) : Bool × StoredStateV1 :=
  if fromPlaylistId == toPlaylistId then (true, state)
  else
    match state.playlists.find? (fun p => p.id == fromPlaylistId),
          state.playlists.find? (fun p => p.id == toPlaylistId) with
    | some _from, some _to =>
      match _from.items.find? (fun v => v.id == videoItemId) with
      | none => (true, state)
      | some item =>
        let r1 := removeVideoFromPlaylistR state fromPlaylistId videoItemId
        let r2 := addVideoToPlaylistR r1.2 toPlaylistId item
        (r1.1 && r2.1, r2.2)
    | _, _ => (true, state)

/- ===================================================================
   The collection invariant (spec section 3)
   =================================================================== -/

/-- The `CollectionState` invariant: the playlist list is non-empty and
the selected id refers to an existing playlist. -/
def stateInvariant (s : StoredStateV1) : Prop :=
  s.playlists ≠ [] ∧ s.selectedPlaylistId ∈ s.playlists.map (fun p => p.id)

instance (s : StoredStateV1) : Decidable (stateInvariant s) := by
  unfold stateInvariant; infer_instance

/- ===================================================================
   base64 (the `btoa` / `atob` platform primitives that
   `toBase64` / `fromBase64` in share.ts build on, together with the
   `base64UrlEncode` / `base64UrlDecode` wrappers of share.ts)
   =================================================================== -/

def b64Alphabet : List Char :=
  ['A', 'B', 'C', 'D', 'E', 'F', 'G', 'H', 'I', 'J', 'K', 'L', 'M',
   'N', 'O', 'P', 'Q', 'R', 'S', 'T', 'U', 'V', 'W', 'X', 'Y', 'Z',
   'a', 'b', 'c', 'd', 'e', 'f', 'g', 'h', 'i', 'j', 'k', 'l', 'm',
   'n', 'o', 'p', 'q', 'r', 's', 't', 'u', 'v', 'w', 'x', 'y', 'z',
   '0', '1', '2', '3', '4', '5', '6', '7', '8', '9', '+', '/']

def b64c (n : Nat) : Char := b64Alphabet.getD n 'A'

def b64val (c : Char) : Option Nat := b64Alphabet.findIdx? (fun d => d == c)

/-- `btoa` on the byte values of a binary string, emitting base64 in
three-byte quanta with `=` padding. -/
def btoaChars : List Nat → List Char
  | [] => []
  | [a] => [b64c (a / 4), b64c (a % 4 * 16), '=', '=']
  | [a, b] => [b64c (a / 4), b64c (a % 4 * 16 + b / 16), b64c (b % 16 * 4), '=']
  | a :: b :: c :: rest =>
    b64c (a / 4) :: b64c (a % 4 * 16 + b / 16) :: b64c (b % 16 * 4 + c / 64) ::
      b64c (c % 64) :: btoaChars rest

def b64quantum4 (c1 c2 c3 c4 : Char) : Option (List Nat) := do
  let x1 ← b64val c1
  let x2 ← b64val c2
  let x3 ← b64val c3
  let x4 ← b64val c4
  pure [x1 * 4 + x2 / 16, x2 % 16 * 16 + x3 / 4, x3 % 4 * 64 + x4]

def b64quantum3 (c1 c2 c3 : Char) : Option (List Nat) := do
  let x1 ← b64val c1
  let x2 ← b64val c2
  let x3 ← b64val c3
  pure [x1 * 4 + x2 / 16, x2 % 16 * 16 + x3 / 4]

def b64quantum2 (c1 c2 : Char) : Option (List Nat) := do
  let x1 ← b64val c1
  let x2 ← b64val c2
  pure [x1 * 4 + x2 / 16]

/-- `atob` model: accepts four-character quanta, with up to two `=` of
padding on the final quantum (leftover bits discarded, as in
forgiving-base64); anything else is the `InvalidCharacterError` case,
modelled as `none`. -/
def atobChars : List Char → Option (List Nat)
  | [] => some []
  | c1 :: c2 :: c3 :: c4 :: rest =>
    if rest.isEmpty then
      if c3 == '=' && c4 == '=' then b64quantum2 c1 c2
      else if c4 == '=' then b64quantum3 c1 c2 c3
      else b64quantum4 c1 c2 c3 c4
    else do
      let bs ← b64quantum4 c1 c2 c3 c4
      let more ← atobChars rest
      pure (bs ++ more)
  | _ => none

/-- The character substitution of `base64UrlEncode`
(`+` to `-` and `/` to `_`). -/
def b64UrlSub (c : Char) : Char := if c == '+' then '-' else if c == '/' then '_' else c

/-- The reverse substitution of `base64UrlDecode`. -/
def b64UrlUnsub (c : Char) : Char := if c == '-' then '+' else if c == '_' then '/' else c

/-- The `replace` of the trailing `=` run in `base64UrlEncode`. -/
def dropTrailingEq (l : List Char) : List Char :=
  (l.reverse.dropWhile (fun c => c == '=')).reverse

def base64UrlEncode (bytes : List Nat) : List Char :=
  dropTrailingEq ((btoaChars bytes).map b64UrlSub)

/-- The padding appended by `base64UrlDecode`:
`"===".slice((s.length + 3) % 4)`. -/
def padFor (n : Nat) : List Char := List.replicate (3 - (n + 3) % 4) '='

def base64UrlDecode (s : List Char) : Option (List Nat) :=
  atobChars (s.map b64UrlUnsub ++ padFor s.length)

/- ===================================================================
   JSON model.  `JSON.stringify` / `JSON.parse`, `pako.deflateRaw` /
   `pako.inflateRaw` and the UTF-8 text codecs are external platform
   capabilities; they appear as an injected `Codecs` record (spec
   section 9 prescribes exactly this abstraction), and theorems assume
   their round-trip behaviour pointwise where needed.
   =================================================================== -/

inductive JValue where
  | null
  | bool (b : Bool)
  | num (n : Nat)
  | str (s : String)
  | arr (elems : List JValue)
  | obj (fields : List (String × JValue))

/-- JS property access `o\x5bk\x5d` for a parsed JSON value that is not
`null` (access on `null` throws and is handled at the call sites). -/
def getField? : JValue → String → Option JValue
  | .obj fs, k => (fs.find? (fun f => f.1 == k)).map (fun f => f.2)
  | _, _ => none

/-- JS truthiness of a possibly-undefined JSON value. -/
def truthyJ : Option JValue → Bool
  | none => false
  | some .null => false
  | some (.bool b) => b
  | some (.num n) => !(n == 0)
  | some (.str s) => !(s == "")
  | some (.arr _) => true
  | some (.obj _) => true

/-- JS `a || b` on a possibly-undefined JSON value. -/
def jsOrJ (a : Option JValue) (d : JValue) : JValue :=
  match a with
  | some v => if truthyJ (some v) then v else d
  | none => d

/-- The injected platform codec capabilities used by the Share Codec. -/
structure Codecs where
  stringify : JValue → String
  parse : String → Option JValue
  deflateRaw : List Nat → List Nat
  inflateRaw : List Nat → Option (List Nat)
  utf8Encode : String → List Nat
  utf8Decode : List Nat → String

/- ===================================================================
   Share Codec: encodeShareFromState (share.ts 62-89)
   =================================================================== -/

/-- `ShareEncodeOptions`; absent members are `none`
(`opts.includeThumbnails` and `opts.scope` are optional in TS). -/
structure ShareEncodeOptions where
  includeThumbnails : Option Bool := none
  scope : Option String := none
deriving Repr, DecidableEq

/-- Keep a truthy string, drop `undefined` and `""` (the JS
`x || undefined` projection used for the optional short fields). -/
def truthyOrNone (a : Option String) : Option String :=
  if truthyS a then a else none

/-- `t: it.title || it.sourceTitle || undefined`. -/
def encTitle (it : VideoItem) : Option String :=
  match truthyOrNone it.title with
  | some s => some s
  | none => truthyOrNone it.sourceTitle

/-- A JSON object member that `JSON.stringify` keeps only when the value
is defined. -/
def optField (k : String) (v : Option JValue) : List (String × JValue) :=
  match v with
  | some j => [(k, j)]
  | none => []

/-- The compact item projection built by `encodeShareFromState`. -/
def encodeItemJ (includeThumbnails : Bool) (it : VideoItem) : JValue :=
  .obj ([("u", JValue.str it.url)]
    ++ optField "y" ((truthyOrNone it.videoId).map JValue.str)
    ++ optField "t" ((encTitle it).map JValue.str)
    ++ optField "g" (if it.tags.isEmpty then none else some (JValue.arr (it.tags.map JValue.str)))
    ++ [("a", JValue.num it.addedAt)]
    ++ optField "h" (if includeThumbnails then it.thumbnailUrl.map JValue.str else none))

/-- The compact playlist projection built by `encodeShareFromState`. -/
def encodePlaylistJ (includeThumbnails : Bool) (pl : Playlist) : JValue :=
  .obj [("n", JValue.str pl.name), ("c", JValue.num pl.createdAt),
        ("i", JValue.arr (pl.items.map (encodeItemJ includeThumbnails)))]

/-- The `ShareStateV1` payload object. -/
def sharePayload (includeThumbnails : Bool) (playlists : List Playlist) : JValue :=
  .obj [("v", JValue.num 1), ("p", JValue.arr (playlists.map (encodePlaylistJ includeThumbnails)))]

/-- The scope selection at the top of `encodeShareFromState`. -/
def scopedPlaylists (state : StoredStateV1) (scope : String) : List Playlist :=
  if scope == "selected" then state.playlists.filter (fun p => p.id == state.selectedPlaylistId)
  else state.playlists

/-- `encodeShareFromState`: project, stringify, deflate, base64url,
prefix with `v1.`. -/
def encodeShareFromState (C : Codecs) (state : StoredStateV1)
    (opts : ShareEncodeOptions) : String :=
  let includeThumbnails := opts.includeThumbnails.getD false
  let scope := jsOrS opts.scope "all"
  let payload := sharePayload includeThumbnails (scopedPlaylists state scope)
  "v1." ++ String.mk (base64UrlEncode (C.deflateRaw (C.utf8Encode (C.stringify payload))))

/- ===================================================================
   Share Codec: decodeShareToState (share.ts 91-126)
   =================================================================== -/

inductive DecodeError where
  | unsupported
  | base64Error
  | inflateError
  | parseError
  | invalid
  | typeError
deriving Repr, DecidableEq

/-- Characters the JS regex `.` does not match (line terminators). -/
def jsDotNoMatch (c : Char) : Bool :=
  c == '\n' || c == '\r' || c == '\u2028' || c == '\u2029'

/-- The `encoded.trim().match` against the anchored `v1.` pattern at the
top of `decodeShareToState`; yields the token body on success. -/
def tokenBody (encoded : String) : Option (List Char) :=
  match (jsTrim encoded).data with
  | c1 :: c2 :: c3 :: rest =>
    if c1 == 'v' && c2 == '1' && c3 == '.' then
      if rest.isEmpty || rest.any jsDotNoMatch then none else some rest
    else none
  | _ => none

/-- A decoded `VideoItem` as actually rebuilt by `decodeShareToState`;
the payload is untrusted JSON, so the copied fields are JSON values
(`none` models `undefined`).  `sourceTitle` is always `undefined` in the
rebuild and is therefore omitted. -/
structure DynItem where
  id : String
  url : Option JValue
  videoId : Option JValue
  title : Option JValue
  thumbnailUrl : Option JValue
  tags : JValue
  addedAt : JValue

/-- A decoded `Playlist` as rebuilt by `decodeShareToState`. -/
structure DynPlaylist where
  id : String
  name : JValue
  createdAt : JValue
  items : List DynItem

/-- The decoded `StoredStateV1` as rebuilt by `decodeShareToState`. -/
structure DynState where
  version : Nat
  selectedPlaylistId : String
  playlists : List DynPlaylist

/-- The item map inside `decodeShareToState`; `gen` is the `newId`
supply and `k` the next supply index; a `null` entry throws a
`TypeError` at the `it.u` access. -/
def decodeItemsJS (gen : Nat → String) (now : Nat) :
    Nat → List JValue → Except DecodeError (List DynItem × Nat)
  | k, [] => .ok ([], k)
  | k, it :: rest =>
    match it with
    | .null => .error .typeError
    | _ => do
      let item : DynItem :=
        { id := gen k
          url := getField? it "u"
          videoId := getField? it "y"
          title := getField? it "t"
          thumbnailUrl := getField? it "h"
          tags := jsOrJ (getField? it "g") (JValue.arr [])
          addedAt := jsOrJ (getField? it "a") (JValue.num now) }
      let (items, k') ← decodeItemsJS gen now (k + 1) rest
      pure ((item :: items), k')

/-- The playlist map inside `decodeShareToState`; a `null` playlist
entry throws at the `pl.i` access and a truthy non-array `pl.i` throws
at the `.map` call. -/
def decodePlaylistsJS (gen : Nat → String) (now : Nat) :
    Nat → List JValue → Except DecodeError (List DynPlaylist × Nat)
  | k, [] => .ok ([], k)
  | k, pl :: rest =>
    match pl with
    | .null => .error .typeError
    | _ =>
      match jsOrJ (getField? pl "i") (JValue.arr []) with
      | .arr its => do
        let (items, k') ← decodeItemsJS gen now (k + 1) its
        let q : DynPlaylist :=
          { id := gen k
            name := jsOrJ (getField? pl "n") (JValue.str "가져온 목록")
            createdAt := jsOrJ (getField? pl "c") (JValue.num now)
            items := items }
        let (qs, k'') ← decodePlaylistsJS gen now k' rest
        pure ((q :: qs), k'')
      | _ => .error .typeError

/-- `decodeShareToState`: validate the prefix, reverse base64url,
inflate, parse, validate the payload shape, rebuild with fresh
identifiers. -/
def decodeShareToState (C : Codecs) (gen : Nat → String) (now : Nat)
    (encoded : String) : Except DecodeError DynState :=
  match tokenBody encoded with
  | none => .error .unsupported
  | some data =>
    match base64UrlDecode data with
    | none => .error .base64Error
    | some bytes =>
      match C.inflateRaw bytes with
      | none => .error .inflateError
      | some inflated =>
        match C.parse (C.utf8Decode inflated) with
        | none => .error .parseError
        | some payload =>
          if !(truthyJ (some payload)) then .error .invalid
          else
            match getField? payload "v", getField? payload "p" with
            | some (.num 1), some (.arr plist) =>
              match decodePlaylistsJS gen now 0 plist with
              | .error e => .error e
              | .ok (playlists, k) =>
                let selected :=
                  match playlists.head? with
                  | some p0 => if p0.id == "" then gen k else p0.id
                  | none => gen k
                .ok { version := 1
                      selectedPlaylistId := selected
                      playlists := (if playlists.isEmpty then [] else playlists) }
            | _, _ => .error .invalid

/-- The invariant of spec section 3 read over a decoded state. -/
def dynInvariant (s : DynState) : Prop :=
  s.playlists ≠ [] ∧ s.selectedPlaylistId ∈ s.playlists.map (fun p => p.id)

/- ===================================================================
   URL Normalizer (the youtube module, normalizeYouTubeUrl).
   The WHATWG `URL` class is a platform builtin; it appears as an
   injected record of observations over an abstract representation
   type, and theorems assume its (re)parse laws as hypotheses.
   =================================================================== -/

/-- The observations of the platform `URL` class used by
`normalizeYouTubeUrl`: construction from a string (`none` models the
thrown `TypeError` on an unparsable input), serialization
(`toString`), `hostname`, `pathname`, `searchParams.get`,
`searchParams.keys` and `searchParams.delete`. -/
structure URLLib (Rep : Type) where
  parse : String → Option Rep
  href : Rep → String
  hostname : Rep → String
  pathname : Rep → String
  getParam : Rep → String → Option String
  paramKeys : Rep → List String
  deleteParam : Rep → String → Rep

/-- `host.replace` of one leading `www.`. -/
def stripWww (host : String) : String :=
  if host.startsWith "www." then host.drop 4 else host

def splitSlash (s : String) : List String := s.splitOn "/"

/-- The query-parameter allow-list `keep` of `normalizeYouTubeUrl`. -/
def keepParams : List String := ["v", "t", "start", "list", "index", "si"]

/-- The video-id extraction of `normalizeYouTubeUrl`.  The source uses
two consecutive `if` statements over `host`; their conditions are
mutually exclusive, so they are rendered as one `if`/`else` chain.
Each `if (id)` truthiness guard drops the empty string. -/
def extractVideoId (host pathname : String) (vParam : Option String) : Option String :=
  if host == "youtu.be" then
    match (splitSlash pathname).filter (fun x => !(x == "")) with
    | id :: _ => some id
    | [] => none
  else if host == "youtube.com" || host == "m.youtube.com" || host == "music.youtube.com" then
    if pathname == "/watch" then
      match vParam with
      | some id => if id == "" then none else some id
      | none => none
    else if pathname.startsWith "/shorts/" then
      match (splitSlash pathname).get? 2 with
      | some id => if id == "" then none else some id
      | none => none
    else if pathname.startsWith "/embed/" then
      match (splitSlash pathname).get? 2 with
      | some id => if id == "" then none else some id
      | none => none
    else none
  else none

/-- One step of the parameter-cleaning loop: delete the key unless it is
on the allow-list. -/
def cleanStep {Rep : Type} (L : URLLib Rep) (c : Rep) (k : String) : Rep :=
  if keepParams.contains k then c else L.deleteParam c k

/-- `normalizeYouTubeUrl`: trim, parse (an unparsable input is returned
as an opaque reference), extract the provider video id, reparse the
serialization and delete all query parameters outside the allow-list.
The inner `none` branch is unreachable for a URL library that can
reparse its own serialization (hypothesis L2 of the idempotence
theorem); it returns the serialization unchanged. -/
def normalizeYouTubeUrl {Rep : Type} (L : URLLib Rep) (input : String) :
    String × Option String :=
  let trimmed := jsTrim input
  match L.parse trimmed with
  | none => (trimmed, none)
  | some url =>
    let host := stripWww (L.hostname url)
    let videoId := extractVideoId host (L.pathname url) (L.getParam url "v")
    match L.parse (L.href url) with
    | none => (L.href url, videoId)
    | some c0 => (L.href ((L.paramKeys c0).foldl (cleanStep L) c0), videoId)

/- ===================================================================
   Import Merge Policy (part_001, the merge branch of the
   ApplyImportModal onApply handler in App)
   =================================================================== -/

def digitToChar (d : Nat) : Char := Char.ofNat (48 + d)

/-- Decimal digits of `n`, most significant first; `fuel` bounds the
recursion (any `fuel ≥ n` is exact). -/
def natDigitsAux : Nat → Nat → List Char
  | 0, _ => []
  | fuel + 1, n => if n == 0 then [] else natDigitsAux fuel (n / 10) ++ [digitToChar (n % 10)]

/-- Model of the JS number-to-string coercion inside the template
literal (for the natural counters used here). -/
def jsNatToString (n : Nat) : String :=
  if n == 0 then "0" else String.mk (natDigitsAux (n + 1) n)

/-- ASCII model of JS `String.prototype.toLowerCase` on one character. -/
def jsCharLower (c : Char) : Char :=
  if 'A' ≤ c && c ≤ 'Z' then Char.ofNat (c.toNat + 32) else c

/-- ASCII model of JS `String.prototype.toLowerCase`. -/
def jsToLower (s : String) : String := String.mk (s.data.map jsCharLower)

/-- `name.trim().toLowerCase()` — the collision key of the merge
handler. -/
def normKey (s : String) : String := jsToLower (jsTrim s)

/-- The probe string of the collision loop. -/
def candName (k : String) (i : Nat) : String := k ++ " (" ++ jsNatToString i ++ ")"

/-- The `while (existingNames.has(k + " (" + i + ")")) i++` loop; `fuel`
bounds the recursion (`names.length + 1` always suffices, by
pigeonhole). -/
def firstFreeAux (names : List String) (k : String) : Nat → Nat → Nat
  | 0, i => i
  | fuel + 1, i =>
    if names.contains (candName k i) then firstFreeAux names k fuel (i + 1) else i

def firstFreeIdx (names : List String) (k : String) : Nat :=
  firstFreeAux names k (names.length + 1) 2

/-- The per-playlist body of the merge map: default an empty name,
rename on collision against the running set, and add the final key to
the set (the JS `Set` is modelled as a list with membership lookup). -/
def renamePlaylist (names : List String) (p : Playlist) : Playlist × List String :=
  let base := if p.name == "" then "가져온 목록" else p.name
  let k := normKey base
  if names.contains k then
    let i := firstFreeIdx names k
    let name := base ++ " (" ++ jsNatToString i ++ ")"
    ({ p with name := name }, names ++ [normKey name])
  else
    ({ p with name := base }, names ++ [k])

/-- `imported.playlists.map` with the running name set threaded through. -/
def renameAll (names : List String) : List Playlist → List Playlist
  | [] => []
  | p :: rest =>
    match renamePlaylist names p with
    | (q, names') => q :: renameAll names' rest

/-- The merge branch: keep all current playlists, append every imported
playlist renamed against the current names. -/
def mergeImportedPlaylists (current imported : List Playlist) : List Playlist :=
  current ++ renameAll (current.map (fun p => normKey p.name)) imported

/- ===================================================================
   Specification-side definitions (for refinement-style claims)
   =================================================================== -/

/-- Spec-side content equality between a source item and its decoded
round-trip image (claim C4): equal on url, videoId, title, tags and
addedAt, and with no thumbnail. -/
def itemRoundTrip (it : VideoItem) (d : DynItem) : Prop :=
  d.url = some (JValue.str it.url) ∧
  d.videoId = it.videoId.map JValue.str ∧
  d.title = it.title.map JValue.str ∧
  d.tags = JValue.arr (it.tags.map JValue.str) ∧
  d.addedAt = JValue.num it.addedAt ∧
  d.thumbnailUrl = none

/-- Spec-side content equality for a playlist (claim C4): equal name and
pointwise item round-trip, in order. -/
def playlistRoundTrip (pl : Playlist) (d : DynPlaylist) : Prop :=
  d.name = JValue.str pl.name ∧ List.Forall₂ itemRoundTrip pl.items d.items

/-- Well-formedness of an item under which the compact share projection
is lossless: a nonzero timestamp, no present-but-empty videoId, and a
title that is either truthy or absent with no truthy sourceTitle
fallback. -/
def wfItem (it : VideoItem) : Prop :=
  it.addedAt ≠ 0 ∧ it.videoId ≠ some "" ∧
  (truthyS it.title = true ∨ (it.title = none ∧ truthyS it.sourceTitle = false))

/-- Well-formedness of a playlist for the lossless round-trip. -/
def wfPlaylist (pl : Playlist) : Prop :=
  pl.name ≠ "" ∧ ∀ it ∈ pl.items, wfItem it

instance (it : VideoItem) : Decidable (wfItem it) := by
  unfold wfItem; infer_instance

instance (pl : Playlist) : Decidable (wfPlaylist pl) := by
  unfold wfPlaylist; infer_instance

/-- Spec-side description (claim C5 as amended) of exactly when
`decodeShareToState` raises: bad prefix, base64url failure, inflate
failure, JSON-parse failure, failed payload validation, or a dynamic
type error in the rebuild phase.  An empty playlist list is not an
error. -/
def decodeRaisesSpec (C : Codecs) (gen : Nat → String) (now : Nat)
    (encoded : String) : Prop :=
  match tokenBody encoded with
  | none => True
  | some data =>
    match base64UrlDecode data with
    | none => True
    | some bytes =>
      match C.inflateRaw bytes with
      | none => True
      | some inflated =>
        match C.parse (C.utf8Decode inflated) with
        | none => True
        | some payload =>
          match getField? payload "v", getField? payload "p" with
          | some (.num 1), some (.arr plist) =>
            truthyJ (some payload) = false ∨
              (∃ e, decodePlaylistsJS gen now 0 plist = .error e)
          | _, _ => True

/-- Spec-side renaming relation of the merge policy (claim C7 as
amended): running name set `ns`; a colliding import gets the counter
`i`, the least index at least 2 whose probe `candName` is free, and the
probe key (not the trimmed-lowercased assigned name) drives the
search. -/
inductive RenameSpec : List String → List Playlist → List Playlist → Prop
  | nil (ns : List String) : RenameSpec ns [] []
  | keep (ns : List String) (p : Playlist) (rest out : List Playlist) (base : String)
      (hbase : base = (if p.name == "" then "가져온 목록" else p.name))
      (hfree : normKey base ∉ ns)
      (hrest : RenameSpec (ns ++ [normKey base]) rest out) :
      RenameSpec ns (p :: rest) ({ p with name := base } :: out)
  | rename (ns : List String) (p : Playlist) (rest out : List Playlist)
      (base : String) (i : Nat)
      (hbase : base = (if p.name == "" then "가져온 목록" else p.name))
      (hcoll : normKey base ∈ ns)
      (hge : 2 ≤ i)
      (hfree : candName (normKey base) i ∉ ns)
      (hmin : ∀ m, 2 ≤ m → m < i → candName (normKey base) m ∈ ns)
      (hrest : RenameSpec (ns ++ [normKey (base ++ " (" ++ jsNatToString i ++ ")")]) rest out) :
      RenameSpec ns (p :: rest)
        ({ p with name := base ++ " (" ++ jsNatToString i ++ ")" } :: out)

/-- Decimal value of a digit string (proof device for the injectivity
of the numeral rendering). -/
def valOfDigits (l : List Char) : Nat :=
  l.foldl (fun acc c => acc * 10 + (c.toNat - 48)) 0

/-- A trivially lawful URL-library instantiation over a one-point
representation type, used to witness the idempotence theorem. -/
def unitURLLib : URLLib Unit :=
  { parse := fun _ => some ()
    href := fun _ => "x"
    hostname := fun _ => ""
    pathname := fun _ => ""
    getParam := fun _ _ => none
    paramKeys := fun _ => []
    deleteParam := fun u _ => u }

/- ===================================================================
   Concrete fixtures used by witnesses and counterexamples.
   =================================================================== -/

def mkPl (i n : String) : Playlist := { id := i, name := n, createdAt := 0, items := [] }

def itmMusic : VideoItem :=
  { id := "v_a", url := "https://youtu.be/abc", videoId := some "abc", title := some "A"
    thumbnailUrl := none, sourceTitle := none, tags := ["music"], addedAt := 11 }

def itmMusic2 : VideoItem := { itmMusic with id := "v_b", title := some "B" }

def plA : Playlist := { id := "plA", name := "A list", createdAt := 1, items := [itmMusic] }

def plB : Playlist := { id := "plB", name := "B list", createdAt := 2, items := [itmMusic2] }

def stAB : StoredStateV1 := { version := 1, selectedPlaylistId := "plA", playlists := [plA, plB] }

def plEmptyP1 : Playlist := { id := "p1", name := "L", createdAt := 3, items := [] }

def itmAddedZero : VideoItem :=
  { id := "v1", url := "u", videoId := none, title := none
    thumbnailUrl := none, sourceTitle := none, tags := [], addedAt := 0 }

def stC4bad : StoredStateV1 :=
  { version := 1
    selectedPlaylistId := "p1"
    playlists := [{ id := "p1", name := "N", createdAt := 1, items := [itmAddedZero] }] }

def cxGen : Nat → String := fun k => "id" ++ jsNatToString k

def cxPayloadC4 : JValue := sharePayload false stC4bad.playlists

/-- A platform-codec instantiation that is lawful at the single payload
of `stC4bad` (the theorems only assume the codec laws pointwise). -/
def cxCodecsC4 : Codecs :=
  { stringify := fun _ => "j"
    parse := fun s => if s == "j" then some cxPayloadC4 else none
    deflateRaw := fun bs => bs
    inflateRaw := fun bs => some bs
    utf8Encode := fun _ => [7]
    utf8Decode := fun _ => "j" }

def cxPayloadC4w : JValue := sharePayload false stAB.playlists

def cxCodecsC4w : Codecs :=
  { stringify := fun _ => "w"
    parse := fun s => if s == "w" then some cxPayloadC4w else none
    deflateRaw := fun bs => bs
    inflateRaw := fun bs => some bs
    utf8Encode := fun _ => [9]
    utf8Decode := fun _ => "w" }

def cxPayloadEmpty : JValue := JValue.obj [("v", JValue.num 1), ("p", JValue.arr [])]

/-- A codec instantiation whose parsed payload has an empty playlist
array. -/
def cxCodecsEmpty : Codecs :=
  { stringify := fun _ => "e"
    parse := fun s => if s == "e" then some cxPayloadEmpty else none
    deflateRaw := fun bs => bs
    inflateRaw := fun bs => some bs
    utf8Encode := fun _ => [7]
    utf8Decode := fun _ => "e" }

def itmOtherC8 : VideoItem :=
  { id := "v_c", url := "https://example.com/x", videoId := none, title := none
    thumbnailUrl := none, sourceTitle := none, tags := [], addedAt := 12 }

def stP1 : StoredStateV1 := { version := 1, selectedPlaylistId := "p1", playlists := [plEmptyP1] }

/- ===================================================================
   ===================  THEOREMS START HERE  =========================
   General helper lemmas about find?, replaceFirst and filter.
   =================================================================== -/

theorem find?_decomp {α : Type} (p : α → Bool) (l : List α) (a : α)
    (h : l.find? p = some a) :
    ∃ l1 l2, l = l1 ++ a :: l2 ∧ (∀ x ∈ l1, p x = false) ∧ p a = true := by
  induction l with
  | nil => simp [List.find?] at h
  | cons x t ih =>
    by_cases hx : p x
    · rw [List.find?_cons_of_pos _ hx] at h
      obtain rfl : x = a := by injection h
      exact ⟨[], t, rfl, by simp, hx⟩
    · rw [List.find?_cons_of_neg _ hx] at h
      obtain ⟨l1, l2, rfl, h1, h2⟩ := ih h
      refine ⟨x :: l1, l2, rfl, ?_, h2⟩
      intro y hy
      rcases List.mem_cons.mp hy with rfl | hy
      · simpa using hx
      · exact h1 y hy

theorem find?_append_cons_pos {α : Type} (p : α → Bool) (l1 l2 : List α) (a : α)
    (h1 : ∀ x ∈ l1, p x = false) (ha : p a = true) :
    (l1 ++ a :: l2).find? p = some a := by
  induction l1 with
  | nil => simpa using List.find?_cons_of_pos l2 ha
  | cons x t ih =>
    have hx : p x = false := h1 x (by simp)
    rw [List.cons_append, List.find?_cons_of_neg _ (by simp [hx])]
    exact ih fun y hy => h1 y (by simp [hy])

theorem find?_middle_congr {α : Type} (p : α → Bool) (l1 l2 : List α) (a b : α)
    (ha : p a = false) (hb : p b = false) :
    (l1 ++ a :: l2).find? p = (l1 ++ b :: l2).find? p := by
  induction l1 with
  | nil =>
    rw [List.nil_append, List.nil_append,
      List.find?_cons_of_neg _ (by simp [ha]), List.find?_cons_of_neg _ (by simp [hb])]
  | cons x t ih =>
    by_cases hx : p x
    · simp [List.find?_cons_of_pos _ hx]
    · rw [List.cons_append, List.cons_append,
        List.find?_cons_of_neg _ hx, List.find?_cons_of_neg _ hx]
      exact ih

theorem replaceFirst_append (l1 l2 : List Playlist) (a q : Playlist)
    (h1 : ∀ x ∈ l1, (x.id == q.id) = false) (h2 : (a.id == q.id) = true) :
    replaceFirst (l1 ++ a :: l2) q = some (l1 ++ q :: l2) := by
  induction l1 with
  | nil => simp [replaceFirst, h2]
  | cons x t ih =>
    have hx : (x.id == q.id) = false := h1 x (by simp)
    simp [replaceFirst, hx, ih fun y hy => h1 y (by simp [hy])]

theorem replaceFirst_map_id (l : List Playlist) (q : Playlist) (l' : List Playlist)
    (h : replaceFirst l q = some l') :
    l'.map (fun p => p.id) = l.map (fun p => p.id) := by
  induction l generalizing l' with
  | nil => simp [replaceFirst] at h
  | cons x t ih =>
    by_cases hx : (x.id == q.id) = true
    · rw [replaceFirst, if_pos hx] at h
      obtain rfl : q :: t = l' := by injection h
      simp [beq_iff_eq.mp hx]
    · rw [replaceFirst, if_neg (by simp_all)] at h
      cases hr : replaceFirst t q with
      | none => rw [hr] at h; simp at h
      | some t' =>
        rw [hr] at h
        obtain rfl : x :: t' = l' := by injection h
        simp [ih t' hr]

theorem upsertPlaylist_decomp (s : StoredStateV1) (q a : Playlist) (l1 l2 : List Playlist)
    (hs : s.playlists = l1 ++ a :: l2)
    (h1 : ∀ x ∈ l1, (x.id == q.id) = false) (h2 : (a.id == q.id) = true) :
    upsertPlaylist s q = { s with playlists := l1 ++ q :: l2 } := by
  unfold upsertPlaylist
  rw [hs, replaceFirst_append l1 l2 a q h1 h2]

theorem upsertPlaylist_invariant (s : StoredStateV1) (q : Playlist)
    (h : stateInvariant s) : stateInvariant (upsertPlaylist s q) := by
  obtain ⟨hne, hmem⟩ := h
  cases hr : replaceFirst s.playlists q with
  | none =>
    have hup : upsertPlaylist s q = { s with playlists := (q :: s.playlists) } := by
      unfold upsertPlaylist; rw [hr]
    rw [hup]
    exact ⟨by simp, by simp only [List.map_cons, List.mem_cons]; exact Or.inr hmem⟩
  | some l =>
    have hup : upsertPlaylist s q = { s with playlists := l } := by
      unfold upsertPlaylist; rw [hr]
    have hm := replaceFirst_map_id _ _ _ hr
    rw [hup]
    constructor
    · intro hl
      replace hl : l = [] := hl
      apply hne
      rw [hl] at hm
      simpa using hm.symm
    · show s.selectedPlaylistId ∈ l.map fun p => p.id
      rw [hm]
      exact hmem

theorem length_filter_id_split (l : List VideoItem) (iid : String) :
    (l.filter (fun v => v.id != iid)).length + (l.filter (fun v => v.id == iid)).length
      = l.length := by
  induction l with
  | nil => rfl
  | cons v t ih =>
    by_cases hv : (v.id == iid) = true
    · simp [List.filter_cons, hv, bne] at ih ⊢
      omega
    · simp [List.filter_cons, hv, bne] at ih ⊢
      omega

theorem map_patch_id (l : List VideoItem) (iid : String) (patch : VideoItemPatch)
    (h : ∀ v ∈ l, (v.id == iid) = false) :
    l.map (fun v => if v.id == iid then applyPatch v patch else v) = l := by
  induction l with
  | nil => rfl
  | cons v t ih =>
    have hv := h v (by simp)
    rw [List.map_cons, if_neg (by simp [hv]), ih fun y hy => h y (by simp [hy])]

/- =============== invariant preservation helpers =============== -/

theorem defaultState_invariant (gid : String) (now : Nat) :
    stateInvariant (defaultState gid now) := by
  exact ⟨by simp [defaultState], by simp [defaultState]⟩

theorem addVideoToPlaylist_invariant (s : StoredStateV1) (pid : String) (item : VideoItem)
    (h : stateInvariant s) : stateInvariant (addVideoToPlaylist s pid item) := by
  unfold addVideoToPlaylist
  split
  · exact h
  · dsimp only
    split
    · exact h
    · exact upsertPlaylist_invariant _ _ h

theorem removeVideoFromPlaylist_invariant (s : StoredStateV1) (pid iid : String)
    (h : stateInvariant s) : stateInvariant (removeVideoFromPlaylist s pid iid) := by
  unfold removeVideoFromPlaylist
  split
  · exact h
  · exact upsertPlaylist_invariant _ _ h

theorem updateVideoInPlaylist_invariant (s : StoredStateV1) (pid iid : String)
    (patch : VideoItemPatch) (h : stateInvariant s) :
    stateInvariant (updateVideoInPlaylist s pid iid patch) := by
  unfold updateVideoInPlaylist
  split
  · exact h
  · exact upsertPlaylist_invariant _ _ h

theorem deletePlaylist_invariant (gid : String) (now : Nat) (s : StoredStateV1) (pid : String)
    (h : stateInvariant s) : stateInvariant (deletePlaylist gid now s pid) := by
  unfold deletePlaylist
  split
  · exact defaultState_invariant gid now
  · rename_i p0 rest heq
    refine ⟨by simp, ?_⟩
    by_cases hsel : (s.selectedPlaylistId == pid) = true
    · simp [hsel]
    · have hne2 : s.selectedPlaylistId ≠ pid := by
        intro hx; exact hsel (by simp [hx])
      obtain ⟨x, hxmem, hxid⟩ := List.mem_map.mp h.2
      have hxf : x ∈ s.playlists.filter (fun p => p.id != pid) := by
        refine List.mem_filter.mpr ⟨hxmem, ?_⟩
        simp [bne, hxid, hne2]
      rw [heq] at hxf
      simp only [hsel, if_false, Bool.false_eq_true]
      exact List.mem_map.mpr ⟨x, hxf, hxid⟩

theorem moveVideo_invariant (s : StoredStateV1) (fid tid iid : String)
    (h : stateInvariant s) : stateInvariant (moveVideo s fid tid iid) := by
  unfold moveVideo
  split
  · exact h
  · split
    · split
      · exact h
      · exact addVideoToPlaylist_invariant _ _ _
          (removeVideoFromPlaylist_invariant _ _ _ h)
    · exact h

/- =============== Claim C3 =============== -/

/-- C3: for every state satisfying the collection invariant, each State
Store operation (upsertPlaylist, deletePlaylist, addVideoToPlaylist,
removeVideoFromPlaylist, updateVideoInPlaylist, moveVideo) preserves the
invariant; deletePlaylist on the only remaining playlist yields exactly
one freshly seeded playlist, never zero; and deleting the selected
playlist makes selection fall back to the first remaining playlist. -/
theorem stateStore_invariant_preservation :
    (∀ s : StoredStateV1, stateInvariant s →
      (∀ q : Playlist, stateInvariant (upsertPlaylist s q)) ∧
      (∀ (gid : String) (now : Nat) (pid : String),
        stateInvariant (deletePlaylist gid now s pid)) ∧
      (∀ (pid : String) (item : VideoItem), stateInvariant (addVideoToPlaylist s pid item)) ∧
      (∀ pid iid : String, stateInvariant (removeVideoFromPlaylist s pid iid)) ∧
      (∀ (pid iid : String) (patch : VideoItemPatch),
        stateInvariant (updateVideoInPlaylist s pid iid patch)) ∧
      (∀ fid tid iid : String, stateInvariant (moveVideo s fid tid iid))) ∧
    (∀ (s : StoredStateV1) (p : Playlist) (gid : String) (now : Nat), s.playlists = [p] →
      deletePlaylist gid now s p.id = defaultState gid now ∧
      (deletePlaylist gid now s p.id).playlists.length = 1) ∧
    (∀ (s : StoredStateV1) (gid : String) (now : Nat) (p0 : Playlist) (rest : List Playlist),
      s.playlists.filter (fun p => p.id != s.selectedPlaylistId) = (p0 :: rest) →
      (deletePlaylist gid now s s.selectedPlaylistId).selectedPlaylistId = p0.id) := by
  refine ⟨?_, ?_, ?_⟩
  · intro s h
    exact ⟨fun q => upsertPlaylist_invariant s q h,
      fun gid now pid => deletePlaylist_invariant gid now s pid h,
      fun pid item => addVideoToPlaylist_invariant s pid item h,
      fun pid iid => removeVideoFromPlaylist_invariant s pid iid h,
      fun pid iid patch => updateVideoInPlaylist_invariant s pid iid patch h,
      fun fid tid iid => moveVideo_invariant s fid tid iid h⟩
  · intro s p gid now hs
    have hd : deletePlaylist gid now s p.id = defaultState gid now := by
      unfold deletePlaylist
      rw [hs]
      simp [List.filter_cons, bne_self_eq_false]
    exact ⟨hd, by rw [hd]; rfl⟩
  · intro s gid now p0 rest hfil
    unfold deletePlaylist
    rw [hfil]
    simp

theorem stateStore_invariant_preservation_witness :
    stateInvariant (upsertPlaylist stAB plA) ∧
    stateInvariant (moveVideo stAB "plA" "plB" "v_a") ∧
    deletePlaylist "g" 5 stP1 plEmptyP1.id = defaultState "g" 5 ∧
    (deletePlaylist "g" 77 stAB stAB.selectedPlaylistId).selectedPlaylistId = plB.id := by
  refine ⟨?_, ?_, ?_, ?_⟩
  · exact (stateStore_invariant_preservation.1 stAB (by decide)).1 plA
  · exact (stateStore_invariant_preservation.1 stAB (by decide)).2.2.2.2.2 "plA" "plB" "v_a"
  · exact (stateStore_invariant_preservation.2.1 stP1 plEmptyP1 "g" 5 (by decide)).1
  · exact stateStore_invariant_preservation.2.2 stAB "g" 77 plB [] (by decide)

/- =============== Claim C2 =============== -/

/-- C2: adding an item whose dedup key (videoId if truthy, else the
trimmed url) already occurs among the target playlist's items is a
no-op returning the state unchanged; in particular adding two items
with the same (nonempty) videoId retains only the first. -/
theorem addVideoToPlaylist_dedup_noop :
    (∀ (s : StoredStateV1) (pid : String) (item : VideoItem) (pl : Playlist),
      s.playlists.find? (fun p => p.id == pid) = some pl →
      pl.items.any (fun v => dedupKey v == jsOrS item.videoId (jsTrim item.url)) = true →
      addVideoToPlaylist s pid item = s) ∧
    (∀ (s : StoredStateV1) (pid : String) (i1 i2 : VideoItem) (pl : Playlist) (vid : String),
      s.playlists.find? (fun p => p.id == pid) = some pl →
      i1.videoId = some vid → i2.videoId = some vid → vid ≠ "" →
      pl.items.any (fun v => dedupKey v == vid) = false →
      addVideoToPlaylist (addVideoToPlaylist s pid i1) pid i2
        = addVideoToPlaylist s pid i1) := by
  constructor
  · intro s pid item pl hfind hdup
    unfold addVideoToPlaylist
    rw [hfind]
    dsimp only
    rw [hdup]
    simp
  · intro s pid i1 i2 pl vid hfind hv1 hv2 hvne hfresh
    have hkey1 : jsOrS i1.videoId (jsTrim i1.url) = vid := by
      rw [hv1]; simp [jsOrS, hvne]
    have hkey1' : dedupKey i1 = vid := by
      unfold dedupKey
      rw [hv1]; simp [jsOrS, hvne]
    have hkey2 : jsOrS i2.videoId (jsTrim i2.url) = vid := by
      rw [hv2]; simp [jsOrS, hvne]
    -- the first add prepends i1
    obtain ⟨l1, l2, hsplit, hl1, hpl⟩ := find?_decomp _ _ _ hfind
    have hup : addVideoToPlaylist s pid i1
        = { s with playlists := l1 ++ ({ pl with items := (i1 :: pl.items) } :: l2) } := by
      unfold addVideoToPlaylist
      rw [hfind]
      dsimp only
      rw [hkey1, hfresh]
      simp only [Bool.false_eq_true, if_false]
      have hplid : pl.id = pid := beq_iff_eq.mp hpl
      refine upsertPlaylist_decomp s _ pl l1 l2 hsplit ?_ ?_
      · intro x hx
        show (x.id == pl.id) = false
        rw [hplid]
        exact hl1 x hx
      · show (pl.id == pl.id) = true
        simp
    -- the second add sees the dedup key of i1 and is a no-op
    rw [hup]
    unfold addVideoToPlaylist
    have hfind2 : (l1 ++ ({ pl with items := (i1 :: pl.items) } :: l2)).find?
        (fun p => p.id == pid) = some { pl with items := (i1 :: pl.items) } :=
      find?_append_cons_pos _ l1 l2 _ hl1 hpl
    dsimp only
    rw [hfind2]
    dsimp only
    rw [hkey2]
    have hany : (i1 :: pl.items).any (fun v => dedupKey v == vid) = true := by
      simp [List.any_cons, hkey1']
    rw [hany]
    simp

theorem addVideoToPlaylist_dedup_noop_witness :
    addVideoToPlaylist stAB "plB" itmMusic = stAB ∧
    addVideoToPlaylist (addVideoToPlaylist stP1 "p1" itmMusic) "p1" itmMusic2
      = addVideoToPlaylist stP1 "p1" itmMusic := by
  constructor
  · exact addVideoToPlaylist_dedup_noop.1 stAB "plB" itmMusic plB (by rfl) (by decide)
  · exact addVideoToPlaylist_dedup_noop.2 stP1 "p1" itmMusic itmMusic2 plEmptyP1 "abc"
      (by rfl) (by rfl) (by rfl) (by decide) (by decide)

/- =============== Claim C1 =============== -/

/-- C1: `moveVideo` between distinct playlists when the destination
already holds an item with the moved item's dedup key: the item is
removed from the source playlist (whose item count decreases by one)
and the destination playlist is left exactly as it was (its item count
is unchanged, the item does not appear in it) — the documented
silent-drop data loss. -/
theorem moveVideo_dup_drops_item
    (s : StoredStateV1) (fromId toId iid : String) (A B : Playlist) (item : VideoItem)
    (hne : (fromId == toId) = false)
    (hA : s.playlists.find? (fun p => p.id == fromId) = some A)
    (hB : s.playlists.find? (fun p => p.id == toId) = some B)
    (hItem : A.items.find? (fun v => v.id == iid) = some item)
    (hdup : B.items.any (fun v => dedupKey v == jsOrS item.videoId (jsTrim item.url)) = true)
    (hcount : (A.items.filter (fun v => v.id == iid)).length = 1) :
    (moveVideo s fromId toId iid).playlists.find? (fun p => p.id == toId) = some B ∧
    (moveVideo s fromId toId iid).playlists.find? (fun p => p.id == fromId)
      = some { A with items := A.items.filter (fun v => v.id != iid) } ∧
    (A.items.filter (fun v => v.id != iid)).length + 1 = A.items.length := by
  obtain ⟨l1, l2, hsplit, hl1, hApred⟩ := find?_decomp _ _ _ hA
  have hAid : A.id = fromId := beq_iff_eq.mp hApred
  -- the removal step
  have hrm : removeVideoFromPlaylist s fromId iid
      = { s with playlists :=
            l1 ++ ({ A with items := A.items.filter (fun v => v.id != iid) } :: l2) } := by
    unfold removeVideoFromPlaylist
    rw [hA]
    refine upsertPlaylist_decomp s _ A l1 l2 hsplit ?_ ?_
    · intro x hx
      show (x.id == A.id) = false
      rw [hAid]
      exact hl1 x hx
    · show (A.id == A.id) = true
      simp
  -- the destination playlist is found unchanged after the removal
  have hBfind : (l1 ++ ({ A with items := A.items.filter (fun v => v.id != iid) } :: l2)).find?
      (fun p => p.id == toId) = some B := by
    have hAto : (A.id == toId) = false := by
      rw [hAid]; exact hne
    rw [find?_middle_congr (fun p => p.id == toId) l1 l2 _ A (by exact hAto) hAto]
    rw [← hsplit]
    exact hB
  -- the add step is the dedup no-op
  have hmv : moveVideo s fromId toId iid
      = { s with playlists :=
            l1 ++ ({ A with items := A.items.filter (fun v => v.id != iid) } :: l2) } := by
    unfold moveVideo
    rw [hne]
    simp only [Bool.false_eq_true, if_false]
    rw [hA, hB]
    dsimp only
    rw [hItem]
    rw [hrm]
    unfold addVideoToPlaylist
    rw [hBfind]
    dsimp only
    rw [hdup]
    simp
  refine ⟨?_, ?_, ?_⟩
  · rw [hmv]; exact hBfind
  · rw [hmv]
    show (l1 ++ _ :: l2).find? _ = _
    refine find?_append_cons_pos _ l1 l2 _ hl1 ?_
    show (A.id == fromId) = true
    simp [hAid]
  · have := length_filter_id_split A.items iid
    omega

theorem moveVideo_dup_drops_item_witness :
    (moveVideo stAB "plA" "plB" "v_a").playlists.find? (fun p => p.id == "plB") = some plB ∧
    (moveVideo stAB "plA" "plB" "v_a").playlists.find? (fun p => p.id == "plA")
      = some { plA with items := plA.items.filter (fun v => v.id != "v_a") } ∧
    (plA.items.filter (fun v => v.id != "v_a")).length + 1 = plA.items.length :=
  moveVideo_dup_drops_item stAB "plA" "plB" "v_a" plA plB itmMusic
    (by decide) (by rfl) (by rfl) (by rfl) (by decide) (by decide)

/- =============== Claim C8 =============== -/

/-- C8: adding an item with a fresh dedup key to an existing playlist
changes only that playlist, by prepending the item; every other
playlist keeps its exact position and value, and the selection and
version fields are unchanged. -/
theorem addVideoToPlaylist_frame
    (s : StoredStateV1) (pid : String) (item : VideoItem) (pl : Playlist)
    (hfind : s.playlists.find? (fun p => p.id == pid) = some pl)
    (hfresh : pl.items.any (fun v => dedupKey v == jsOrS item.videoId (jsTrim item.url))
      = false) :
    ∃ l1 l2, s.playlists = l1 ++ pl :: l2 ∧ (∀ x ∈ l1, (x.id == pid) = false) ∧
      (addVideoToPlaylist s pid item).playlists
        = l1 ++ ({ pl with items := (item :: pl.items) } :: l2) ∧
      (addVideoToPlaylist s pid item).selectedPlaylistId = s.selectedPlaylistId ∧
      (addVideoToPlaylist s pid item).version = s.version := by
  obtain ⟨l1, l2, hsplit, hl1, hpred⟩ := find?_decomp _ _ _ hfind
  have hplid : pl.id = pid := beq_iff_eq.mp hpred
  have hup : addVideoToPlaylist s pid item
      = { s with playlists := l1 ++ ({ pl with items := (item :: pl.items) } :: l2) } := by
    unfold addVideoToPlaylist
    rw [hfind]
    dsimp only
    rw [hfresh]
    simp only [Bool.false_eq_true, if_false]
    refine upsertPlaylist_decomp s _ pl l1 l2 hsplit ?_ ?_
    · intro x hx
      show (x.id == pl.id) = false
      rw [hplid]
      exact hl1 x hx
    · show (pl.id == pl.id) = true
      simp
  exact ⟨l1, l2, hsplit, hl1, by rw [hup], by rw [hup], by rw [hup]⟩

theorem addVideoToPlaylist_frame_witness :
    ∃ l1 l2, stAB.playlists = l1 ++ plA :: l2 ∧ (∀ x ∈ l1, (x.id == "plA") = false) ∧
      (addVideoToPlaylist stAB "plA" itmOtherC8).playlists
        = l1 ++ ({ plA with items := (itmOtherC8 :: plA.items) } :: l2) ∧
      (addVideoToPlaylist stAB "plA" itmOtherC8).selectedPlaylistId
        = stAB.selectedPlaylistId ∧
      (addVideoToPlaylist stAB "plA" itmOtherC8).version = stAB.version :=
  addVideoToPlaylist_frame stAB "plA" itmOtherC8 plA (by rfl) (by decide)

/- =============== Claim C6 =============== -/

/-- C6 (amended): reference-identity behaviour of the State Store
operations, with `true` marking the literal `return state;` paths of
the source (the only way the result can be the same object).
add / remove / update / move return the very state object they were
given on their early no-op paths (playlist missing, duplicate dedup
key, identical source and destination); but `updateVideoInPlaylist`
with an existing playlist and a missing item returns a structurally
equal fresh object, and `deletePlaylist` never returns its argument
object — deleting an absent id from an invariant-satisfying state also
yields only a structurally equal fresh object. -/
theorem sameRef_characterization :
    (∀ (s : StoredStateV1) (pid iid : String) (patch : VideoItemPatch),
      s.playlists.find? (fun p => p.id == pid) = none →
      updateVideoInPlaylistR s pid iid patch = (true, s)) ∧
    (∀ (s : StoredStateV1) (pid iid : String) (patch : VideoItemPatch) (pl : Playlist),
      s.playlists.find? (fun p => p.id == pid) = some pl →
      pl.items.find? (fun v => v.id == iid) = none →
      (updateVideoInPlaylistR s pid iid patch).1 = false ∧
      (updateVideoInPlaylistR s pid iid patch).2 = s) ∧
    (∀ (s : StoredStateV1) (pid iid : String),
      s.playlists.find? (fun p => p.id == pid) = none →
      removeVideoFromPlaylistR s pid iid = (true, s)) ∧
    (∀ (gid : String) (now : Nat) (s : StoredStateV1) (pid : String),
      (deletePlaylistR gid now s pid).1 = false) ∧
    (∀ (gid : String) (now : Nat) (s : StoredStateV1) (pid : String),
      stateInvariant s → (∀ p ∈ s.playlists, p.id ≠ pid) →
      (deletePlaylistR gid now s pid).2 = s) ∧
    (∀ (s : StoredStateV1) (pid : String) (item : VideoItem),
      s.playlists.find? (fun p => p.id == pid) = none →
      addVideoToPlaylistR s pid item = (true, s)) ∧
    (∀ (s : StoredStateV1) (pid : String) (item : VideoItem) (pl : Playlist),
      s.playlists.find? (fun p => p.id == pid) = some pl →
      pl.items.any (fun v => dedupKey v == jsOrS item.videoId (jsTrim item.url)) = true →
      addVideoToPlaylistR s pid item = (true, s)) ∧
    (∀ (s : StoredStateV1) (q : Playlist), (upsertPlaylistR s q).1 = false) ∧
    (∀ (s : StoredStateV1) (fid tid iid : String), (fid == tid) = true →
      moveVideoR s fid tid iid = (true, s)) := by
  refine ⟨?_, ?_, ?_, ?_, ?_, ?_, ?_, ?_, ?_⟩
  · intro s pid iid patch hfind
    unfold updateVideoInPlaylistR
    rw [hfind]
  · intro s pid iid patch pl hfind hmiss
    have hall : ∀ v ∈ pl.items, (v.id == iid) = false := by
      intro v hv
      have := List.find?_eq_none.mp hmiss v hv
      simpa using this
    obtain ⟨l1, l2, hsplit, hl1, hpred⟩ := find?_decomp _ _ _ hfind
    have hplid : pl.id = pid := beq_iff_eq.mp hpred
    have hmap := map_patch_id pl.items iid patch hall
    constructor
    · unfold updateVideoInPlaylistR
      rw [hfind]
    · unfold updateVideoInPlaylistR
      rw [hfind]
      dsimp only
      rw [hmap]
      show upsertPlaylist s pl = s
      have := upsertPlaylist_decomp s pl pl l1 l2 hsplit
        (by intro x hx; rw [hplid]; exact hl1 x hx)
        (by simp)
      rw [this, ← hsplit]
  · intro s pid iid hfind
    unfold removeVideoFromPlaylistR
    rw [hfind]
  · intro gid now s pid
    rfl
  · intro gid now s pid hinv habs
    have hfil : s.playlists.filter (fun p => p.id != pid) = s.playlists :=
      List.filter_eq_self.mpr fun p hp => by simp [bne, habs p hp]
    have hselne : s.selectedPlaylistId ≠ pid := by
      obtain ⟨x, hxmem, hxid⟩ := List.mem_map.mp hinv.2
      rw [← hxid]
      exact habs x hxmem
    show deletePlaylist gid now s pid = s
    unfold deletePlaylist
    rw [hfil]
    cases hpl : s.playlists with
    | nil => exact absurd hpl hinv.1
    | cons p0 rest =>
      simp only [beq_eq_false_iff_ne.mpr hselne, Bool.false_eq_true, if_false]
      rw [← hpl]
  · intro s pid item hfind
    unfold addVideoToPlaylistR
    rw [hfind]
  · intro s pid item pl hfind hdup
    unfold addVideoToPlaylistR
    rw [hfind]
    dsimp only
    rw [hdup]
    simp
  · intro s q
    rfl
  · intro s fid tid iid heq
    unfold moveVideoR
    rw [heq]
    simp

theorem sameRef_characterization_witness :
    updateVideoInPlaylistR stP1 "zz" "ii" {} = (true, stP1) ∧
    ((updateVideoInPlaylistR stP1 "p1" "nope" {}).1 = false ∧
      (updateVideoInPlaylistR stP1 "p1" "nope" {}).2 = stP1) ∧
    (deletePlaylistR "g" 9 stAB "absent").2 = stAB ∧
    addVideoToPlaylistR stAB "plB" itmMusic = (true, stAB) ∧
    moveVideoR stAB "plA" "plA" "v_a" = (true, stAB) := by
  refine ⟨?_, ?_, ?_, ?_, ?_⟩
  · exact sameRef_characterization.1 stP1 "zz" "ii" {} (by rfl)
  · exact sameRef_characterization.2.1 stP1 "p1" "nope" {} plEmptyP1 (by rfl) (by rfl)
  · exact sameRef_characterization.2.2.2.2.1 "g" 9 stAB "absent" (by decide) (by decide)
  · exact sameRef_characterization.2.2.2.2.2.2.1 stAB "plB" itmMusic plB (by rfl) (by decide)
  · exact sameRef_characterization.2.2.2.2.2.2.2.2 stAB "plA" "plA" "v_a" (by decide)

/-- C6 counterexample: two documented no-op situations in which the
source does not return the state object it was given (the `false` flag:
the result is a structurally equal but freshly allocated object) —
`updateVideoInPlaylist` on an existing playlist with a missing item,
and `deletePlaylist` of an absent id.  This refutes the claim that
every documented no-op condition returns the same state reference. -/
theorem updateVideo_noop_fresh_object_cx :
    (updateVideoInPlaylistR stP1 "p1" "nope" {}).1 = false ∧
    (updateVideoInPlaylistR stP1 "p1" "nope" {}).2 = stP1 ∧
    (deletePlaylistR "g" 9 stAB "absent").1 = false ∧
    (deletePlaylistR "g" 9 stAB "absent").2 = stAB := by
  exact ⟨by decide, by decide, by decide, by decide⟩

/- =============== base64 round-trip =============== -/

theorem b64_char_facts : ∀ n, n < 64 →
    b64val (b64c n) = some n ∧
    (b64c n == '=') = false ∧
    b64UrlUnsub (b64UrlSub (b64c n)) = b64c n ∧
    (b64UrlSub (b64c n) == '=') = false ∧
    jsWhitespace (b64UrlSub (b64c n)) = false ∧
    jsDotNoMatch (b64UrlSub (b64c n)) = false := by decide

theorem dropWhile_all_false {p : Char → Bool} {l : List Char}
    (h : ∀ c ∈ l, p c = false) : l.dropWhile p = l := by
  induction l with
  | nil => rfl
  | cons a t ih =>
    rw [List.dropWhile_cons, if_neg (by simp [h a (by simp)])]


theorem dropWhile_replicate_append (p : Char → Bool) (k : Nat) (a : Char) (y : List Char)
    (hpa : p a = true) : (List.replicate k a ++ y).dropWhile p = y.dropWhile p := by
  induction k with
  | zero => rfl
  | succ k ih =>
    rw [List.replicate_succ, List.cons_append, List.dropWhile_cons, if_pos (by simp [hpa])]
    exact ih

theorem trimChars_all_nonws {l : List Char} (h : ∀ c ∈ l, jsWhitespace c = false) :
    trimChars l = l := by
  unfold trimChars
  rw [dropWhile_all_false h,
    dropWhile_all_false fun c hc => h c (List.mem_reverse.mp hc),
    List.reverse_reverse]

theorem btoaChars_ne_nil (l : List Nat) (h : l ≠ []) : btoaChars l ≠ [] := by
  match l with
  | [] => exact absurd rfl h
  | [a] => simp [btoaChars]
  | [a, b] => simp [btoaChars]
  | a :: b :: c :: rest => simp [btoaChars]

theorem atob_btoa_bounded : ∀ (n : Nat) (bs : List Nat), bs.length ≤ n →
    (∀ b ∈ bs, b < 256) → atobChars (btoaChars bs) = some bs := by
  intro n
  induction n with
  | zero =>
    intro bs hlen _
    have : bs = [] := List.eq_nil_of_length_eq_zero (Nat.le_zero.mp hlen)
    subst this
    rfl
  | succ n ih =>
    intro bs hlen h
    match bs with
    | [] => rfl
    | [a] =>
      have ha : a < 256 := h a (by simp)
      have h1 := (b64_char_facts (a / 4) (by omega)).1
      have h2 := (b64_char_facts (a % 4 * 16) (by omega)).1
      show atobChars [b64c (a / 4), b64c (a % 4 * 16), '=', '='] = some [a]
      simp [atobChars, b64quantum2, h1, h2]
      omega
    | [a, b] =>
      have ha : a < 256 := h a (by simp)
      have hb : b < 256 := h b (by simp)
      have h1 := (b64_char_facts (a / 4) (by omega)).1
      have h2 := (b64_char_facts (a % 4 * 16 + b / 16) (by omega)).1
      have h3 := (b64_char_facts (b % 16 * 4) (by omega))
      show atobChars [b64c (a / 4), b64c (a % 4 * 16 + b / 16), b64c (b % 16 * 4), '=']
        = some [a, b]
      simp [atobChars, h3.2, b64quantum3, h1, h2, h3.1]
      omega
    | a :: b :: c :: rest =>
      have ha : a < 256 := h a (by simp)
      have hb : b < 256 := h b (by simp)
      have hc : c < 256 := h c (by simp)
      have h1 := (b64_char_facts (a / 4) (by omega)).1
      have h2 := (b64_char_facts (a % 4 * 16 + b / 16) (by omega)).1
      have h3 := (b64_char_facts (b % 16 * 4 + c / 64) (by omega))
      have h4 := (b64_char_facts (c % 64) (by omega))
      show atobChars (b64c (a / 4) :: b64c (a % 4 * 16 + b / 16)
          :: b64c (b % 16 * 4 + c / 64) :: b64c (c % 64) :: btoaChars rest)
        = some (a :: b :: c :: rest)
      match hrest : rest with
      | [] =>
        simp [atobChars, btoaChars, h3.2, h4.2, b64quantum4, h1, h2, h3.1, h4.1]
        omega
      | r0 :: rtail =>
        have hne : btoaChars rest ≠ [] := by
          rw [hrest]; exact btoaChars_ne_nil _ (by simp)
        rw [← hrest]
        have hemp : (btoaChars rest).isEmpty = false := by
          cases hx : btoaChars rest with
          | nil => exact absurd hx hne
          | cons u v => rfl
        have hih : atobChars (btoaChars rest) = some rest := by
          apply ih rest
          · have : rest.length + 3 ≤ n + 1 := by
              rw [hrest]
              simpa using hlen
            omega
          · intro x hx
            exact h x (by simp [hrest] at hx ⊢; tauto)
        simp [atobChars, hemp, b64quantum4, h1, h2, h3.1, h4.1, hih]
        omega

theorem atob_btoa (bs : List Nat) (h : ∀ b ∈ bs, b < 256) :
    atobChars (btoaChars bs) = some bs :=
  atob_btoa_bounded bs.length bs (Nat.le_refl _) h

theorem btoa_decomp_bounded : ∀ (n : Nat) (bs : List Nat), bs.length ≤ n →
    (∀ b ∈ bs, b < 256) →
    ∃ core k, btoaChars bs = core ++ List.replicate k '=' ∧ k ≤ 2 ∧
      (core.length + k) % 4 = 0 ∧ ∀ c ∈ core, ∃ m, m < 64 ∧ c = b64c m := by
  intro n
  induction n with
  | zero =>
    intro bs hlen _
    have : bs = [] := List.eq_nil_of_length_eq_zero (Nat.le_zero.mp hlen)
    subst this
    exact ⟨[], 0, rfl, by omega, by simp, by simp⟩
  | succ n ih =>
    intro bs hlen h
    match bs with
    | [] => exact ⟨[], 0, rfl, by omega, by simp, by simp⟩
    | [a] =>
      have ha : a < 256 := h a (by simp)
      refine ⟨[b64c (a / 4), b64c (a % 4 * 16)], 2, rfl, by omega, by simp, ?_⟩
      intro c hc
      rcases List.mem_cons.mp hc with rfl | hc
      · exact ⟨a / 4, by omega, rfl⟩
      · rcases List.mem_cons.mp hc with rfl | hc
        · exact ⟨a % 4 * 16, by omega, rfl⟩
        · simp at hc
    | [a, b] =>
      have ha : a < 256 := h a (by simp)
      have hb : b < 256 := h b (by simp)
      refine ⟨[b64c (a / 4), b64c (a % 4 * 16 + b / 16), b64c (b % 16 * 4)], 1, rfl,
        by omega, by simp, ?_⟩
      intro c hc
      rcases List.mem_cons.mp hc with rfl | hc
      · exact ⟨a / 4, by omega, rfl⟩
      rcases List.mem_cons.mp hc with rfl | hc
      · exact ⟨a % 4 * 16 + b / 16, by omega, rfl⟩
      rcases List.mem_cons.mp hc with rfl | hc
      · exact ⟨b % 16 * 4, by omega, rfl⟩
      · simp at hc
    | a :: b :: c :: rest =>
      have ha : a < 256 := h a (by simp)
      have hb : b < 256 := h b (by simp)
      have hc : c < 256 := h c (by simp)
      have hlen' : rest.length ≤ n := by
        have : rest.length + 3 ≤ n + 1 := by simpa using hlen
        omega
      obtain ⟨core, k, hbt, hk, hmod, hmem⟩ := ih rest hlen'
        (fun x hx => h x (by simp [hx]))
      refine ⟨b64c (a / 4) :: b64c (a % 4 * 16 + b / 16) :: b64c (b % 16 * 4 + c / 64) ::
        b64c (c % 64) :: core, k, ?_, hk, by simp; omega, ?_⟩
      · show btoaChars (a :: b :: c :: rest) = _
        rw [btoaChars, hbt]
        simp
      · intro x hx
        rcases List.mem_cons.mp hx with rfl | hx
        · exact ⟨a / 4, by omega, rfl⟩
        rcases List.mem_cons.mp hx with rfl | hx
        · exact ⟨a % 4 * 16 + b / 16, by omega, rfl⟩
        rcases List.mem_cons.mp hx with rfl | hx
        · exact ⟨b % 16 * 4 + c / 64, by omega, rfl⟩
        rcases List.mem_cons.mp hx with rfl | hx
        · exact ⟨c % 64, by omega, rfl⟩
        · exact hmem x hx

theorem btoa_decomp (bs : List Nat) (h : ∀ b ∈ bs, b < 256) :
    ∃ core k, btoaChars bs = core ++ List.replicate k '=' ∧ k ≤ 2 ∧
      (core.length + k) % 4 = 0 ∧ ∀ c ∈ core, ∃ m, m < 64 ∧ c = b64c m :=
  btoa_decomp_bounded bs.length bs (Nat.le_refl _) h

theorem dropTrailingEq_append (x : List Char) (k : Nat)
    (hx : ∀ c ∈ x, (c == '=') = false) :
    dropTrailingEq (x ++ List.replicate k '=') = x := by
  unfold dropTrailingEq
  rw [List.reverse_append, List.reverse_replicate,
    dropWhile_replicate_append _ _ _ _ (by simp),
    dropWhile_all_false fun c hc => hx c (List.mem_reverse.mp hc),
    List.reverse_reverse]

theorem map_id_of_eq {α : Type} {l : List α} {f : α → α} (h : ∀ c ∈ l, f c = c) :
    l.map f = l := by
  induction l with
  | nil => rfl
  | cons a t ih => simp [h a (by simp), ih fun c hc => h c (by simp [hc])]

theorem base64UrlEncode_decomp (bs : List Nat) (h : ∀ b ∈ bs, b < 256) :
    ∃ core, base64UrlEncode bs = core.map b64UrlSub ∧
      (∀ c ∈ core, ∃ m, m < 64 ∧ c = b64c m) ∧
      ∃ k, btoaChars bs = core ++ List.replicate k '=' ∧ k ≤ 2 ∧
        (core.length + k) % 4 = 0 := by
  obtain ⟨core, k, hbt, hk, hmod, hmem⟩ := btoa_decomp bs h
  refine ⟨core, ?_, hmem, k, hbt, hk, hmod⟩
  unfold base64UrlEncode
  rw [hbt, List.map_append, List.map_replicate]
  have hs : b64UrlSub '=' = '=' := rfl
  rw [hs]
  apply dropTrailingEq_append
  intro c hc
  obtain ⟨d, hd, rfl⟩ := List.mem_map.mp hc
  obtain ⟨m, hm, rfl⟩ := hmem d hd
  exact (b64_char_facts m hm).2.2.2.1

theorem base64url_roundtrip (bs : List Nat) (h : ∀ b ∈ bs, b < 256) :
    base64UrlDecode (base64UrlEncode bs) = some bs := by
  obtain ⟨core, henc, hmem, k, hbt, hk, hmod⟩ := base64UrlEncode_decomp bs h
  unfold base64UrlDecode
  rw [henc]
  have hunsub : (core.map b64UrlSub).map b64UrlUnsub = core := by
    rw [List.map_map]
    apply map_id_of_eq
    intro c hc
    obtain ⟨m, hm, rfl⟩ := hmem c hc
    exact (b64_char_facts m hm).2.2.1
  rw [hunsub]
  have hpad : padFor (core.map b64UrlSub).length = List.replicate k '=' := by
    simp only [List.length_map]
    unfold padFor
    congr 1
    omega
  rw [hpad, ← hbt]
  exact atob_btoa bs h

theorem base64UrlEncode_chars (bs : List Nat) (h : ∀ b ∈ bs, b < 256) :
    ∀ c ∈ base64UrlEncode bs, jsWhitespace c = false ∧ jsDotNoMatch c = false := by
  obtain ⟨core, henc, hmem, _⟩ := base64UrlEncode_decomp bs h
  rw [henc]
  intro c hc
  obtain ⟨d, hd, rfl⟩ := List.mem_map.mp hc
  obtain ⟨m, hm, rfl⟩ := hmem d hd
  exact ⟨(b64_char_facts m hm).2.2.2.2.1, (b64_char_facts m hm).2.2.2.2.2⟩

theorem base64UrlEncode_ne_nil (bs : List Nat) (h : ∀ b ∈ bs, b < 256) (hne : bs ≠ []) :
    base64UrlEncode bs ≠ [] := by
  intro hx
  have hrt := base64url_roundtrip bs h
  rw [hx] at hrt
  have : some ([] : List Nat) = some bs := by
    simpa [base64UrlDecode, padFor, atobChars] using hrt
  apply hne
  injection this with h2
  exact h2.symm

/- =============== token prefix handling =============== -/

theorem tokenBody_encode (bs : List Nat) (h : ∀ b ∈ bs, b < 256) (hne : bs ≠ []) :
    tokenBody ("v1." ++ String.mk (base64UrlEncode bs)) = some (base64UrlEncode bs) := by
  have hchars := base64UrlEncode_chars bs h
  have hdata : ("v1." ++ String.mk (base64UrlEncode bs)).data
      = 'v' :: '1' :: '.' :: base64UrlEncode bs := by
    rw [String.data_append]
    rfl
  have htriml : trimChars ('v' :: '1' :: '.' :: base64UrlEncode bs)
      = 'v' :: '1' :: '.' :: base64UrlEncode bs := by
    apply trimChars_all_nonws
    intro c hc
    rcases List.mem_cons.mp hc with rfl | hc
    · decide
    rcases List.mem_cons.mp hc with rfl | hc
    · decide
    rcases List.mem_cons.mp hc with rfl | hc
    · decide
    · exact (hchars c hc).1
  have hjs : (jsTrim ("v1." ++ String.mk (base64UrlEncode bs))).data
      = 'v' :: '1' :: '.' :: base64UrlEncode bs := by
    unfold jsTrim
    rw [hdata, htriml]
  unfold tokenBody
  rw [hjs]
  have hemp : (base64UrlEncode bs).isEmpty = false := by
    cases hx : base64UrlEncode bs with
    | nil => exact absurd hx (base64UrlEncode_ne_nil bs h hne)
    | cons u v => rfl
  have hany : (base64UrlEncode bs).any jsDotNoMatch = false := by
    rw [List.any_eq_false]
    intro c hc
    simp [(hchars c hc).2]
  simp [hemp, hany]

/- =============== share codec round-trip field lemmas =============== -/

theorem encodeItem_fields (it : VideoItem) :
    getField? (encodeItemJ false it) "u" = some (JValue.str it.url) ∧
    getField? (encodeItemJ false it) "y" = (truthyOrNone it.videoId).map JValue.str ∧
    getField? (encodeItemJ false it) "t" = (encTitle it).map JValue.str ∧
    getField? (encodeItemJ false it) "g"
      = (if it.tags.isEmpty then none else some (JValue.arr (it.tags.map JValue.str))) ∧
    getField? (encodeItemJ false it) "a" = some (JValue.num it.addedAt) ∧
    getField? (encodeItemJ false it) "h" = none := by
  cases hy : truthyOrNone it.videoId <;> cases ht : encTitle it <;>
    cases hg : it.tags.isEmpty <;>
    simp [encodeItemJ, optField, getField?, List.find?, hy, ht, hg]

theorem encodePlaylist_fields (pl : Playlist) :
    getField? (encodePlaylistJ false pl) "n" = some (JValue.str pl.name) ∧
    getField? (encodePlaylistJ false pl) "c" = some (JValue.num pl.createdAt) ∧
    getField? (encodePlaylistJ false pl) "i"
      = some (JValue.arr (pl.items.map (encodeItemJ false))) := by
  refine ⟨?_, ?_, ?_⟩ <;> simp [encodePlaylistJ, getField?, List.find?]

theorem truthyOrNone_eq_self {v : Option String} (h : v ≠ some "") : truthyOrNone v = v := by
  cases v with
  | none => rfl
  | some s =>
    have hs : ¬(s == "") = true := by
      intro h2
      exact h (by rw [beq_iff_eq.mp h2])
    simp only [truthyOrNone, truthyS]
    rw [if_pos]
    simp [hs]

theorem encTitle_eq_title {it : VideoItem}
    (h : truthyS it.title = true ∨ (it.title = none ∧ truthyS it.sourceTitle = false)) :
    encTitle it = it.title := by
  rcases h with h | ⟨h1, h2⟩
  · unfold encTitle truthyOrNone
    rw [if_pos h]
    cases hx : it.title with
    | none => rw [hx] at h; simp [truthyS] at h
    | some t => rfl
  · unfold encTitle truthyOrNone
    rw [h1, h2]
    simp [truthyS]

theorem jsOrJ_tags (tags : List String) :
    jsOrJ (if tags.isEmpty then none else some (JValue.arr (tags.map JValue.str)))
        (JValue.arr []) = JValue.arr (tags.map JValue.str) := by
  cases tags with
  | nil => rfl
  | cons a t => rfl

theorem jsOrJ_num_ne_zero {a d : Nat} (h : a ≠ 0) :
    jsOrJ (some (JValue.num a)) (JValue.num d) = JValue.num a := by
  simp [jsOrJ, truthyJ, h]

theorem jsOrJ_str_ne {s : String} (d : JValue) (h : s ≠ "") :
    jsOrJ (some (JValue.str s)) d = JValue.str s := by
  simp [jsOrJ, truthyJ, h]

theorem decodeItemsJS_cons_obj (gen : Nat → String) (now k : Nat)
    (fs : List (String × JValue)) (rest : List JValue) (dyns : List DynItem) (k' : Nat)
    (hrest : decodeItemsJS gen now (k + 1) rest = .ok (dyns, k')) :
    decodeItemsJS gen now k (JValue.obj fs :: rest)
      = .ok (({ id := gen k
                url := getField? (JValue.obj fs) "u"
                videoId := getField? (JValue.obj fs) "y"
                title := getField? (JValue.obj fs) "t"
                thumbnailUrl := getField? (JValue.obj fs) "h"
                tags := jsOrJ (getField? (JValue.obj fs) "g") (JValue.arr [])
                addedAt := jsOrJ (getField? (JValue.obj fs) "a") (JValue.num now) } :: dyns),
          k') := by
  simp only [decodeItemsJS]
  rw [hrest]
  rfl

theorem decodeItems_encode (gen : Nat → String) (now : Nat) :
    ∀ (its : List VideoItem) (k : Nat), (∀ it ∈ its, wfItem it) →
    ∃ dyns, decodeItemsJS gen now k (its.map (encodeItemJ false))
        = .ok (dyns, k + its.length) ∧
      List.Forall₂ itemRoundTrip its dyns := by
  intro its
  induction its with
  | nil =>
    intro k _
    exact ⟨[], by simp [decodeItemsJS], List.Forall₂.nil⟩
  | cons it rest ih =>
    intro k h
    obtain ⟨dyns, hd, hf⟩ := ih (k + 1) fun x hx => h x (by simp [hx])
    have hwf := h it (by simp)
    obtain ⟨hu, hy, ht, hg, ha, hh⟩ := encodeItem_fields it
    refine ⟨{ id := gen k
              url := getField? (encodeItemJ false it) "u"
              videoId := getField? (encodeItemJ false it) "y"
              title := getField? (encodeItemJ false it) "t"
              thumbnailUrl := getField? (encodeItemJ false it) "h"
              tags := jsOrJ (getField? (encodeItemJ false it) "g") (JValue.arr [])
              addedAt := jsOrJ (getField? (encodeItemJ false it) "a") (JValue.num now) }
        :: dyns, ?_, ?_⟩
    · rw [List.map_cons]
      rw [show encodeItemJ false it = JValue.obj ([("u", JValue.str it.url)]
        ++ optField "y" ((truthyOrNone it.videoId).map JValue.str)
        ++ optField "t" ((encTitle it).map JValue.str)
        ++ optField "g" (if it.tags.isEmpty then none
            else some (JValue.arr (it.tags.map JValue.str)))
        ++ [("a", JValue.num it.addedAt)]
        ++ optField "h" (if false then it.thumbnailUrl.map JValue.str else none)) from rfl]
      rw [decodeItemsJS_cons_obj gen now k _ _ dyns (k + 1 + rest.length) hd]
      have hk : k + 1 + rest.length = k + (rest.length + 1) := by omega
      rw [hk]
      rfl
    · refine List.Forall₂.cons ?_ hf
      refine ⟨hu, ?_, ?_, ?_, ?_, hh⟩
      · rw [hy, truthyOrNone_eq_self hwf.2.1]
      · rw [ht, encTitle_eq_title hwf.2.2]
      · rw [hg]
        exact jsOrJ_tags it.tags
      · rw [ha]
        exact jsOrJ_num_ne_zero hwf.1

theorem except_bind_ok {ε α β : Type} (a : α) (f : α → Except ε β) :
    (Except.ok a >>= f : Except ε β) = f a := rfl

theorem decodePlaylistsJS_cons_obj (gen : Nat → String) (now k : Nat)
    (fs : List (String × JValue)) (rest : List JValue) (its : List JValue)
    (hif : jsOrJ (getField? (JValue.obj fs) "i") (JValue.arr []) = JValue.arr its)
    (idyns : List DynItem) (k1 : Nat)
    (hitems : decodeItemsJS gen now (k + 1) its = .ok (idyns, k1))
    (pdyns : List DynPlaylist) (k2 : Nat)
    (hrest : decodePlaylistsJS gen now k1 rest = .ok (pdyns, k2)) :
    decodePlaylistsJS gen now k (JValue.obj fs :: rest)
      = .ok (({ id := gen k
                name := jsOrJ (getField? (JValue.obj fs) "n") (JValue.str "가져온 목록")
                createdAt := jsOrJ (getField? (JValue.obj fs) "c") (JValue.num now)
                items := idyns } :: pdyns), k2) := by
  simp only [decodePlaylistsJS]
  rw [hif]
  dsimp only
  rw [hitems, except_bind_ok]
  dsimp only
  rw [hrest, except_bind_ok]
  rfl

theorem decodePlaylists_encode (gen : Nat → String) (now : Nat) :
    ∀ (pls : List Playlist) (k : Nat), (∀ pl ∈ pls, wfPlaylist pl) →
    ∃ dyns k', decodePlaylistsJS gen now k (pls.map (encodePlaylistJ false))
        = .ok (dyns, k') ∧
      List.Forall₂ playlistRoundTrip pls dyns := by
  intro pls
  induction pls with
  | nil =>
    intro k _
    exact ⟨[], k, by simp [decodePlaylistsJS], List.Forall₂.nil⟩
  | cons pl rest ih =>
    intro k h
    have hwf := h pl (by simp)
    obtain ⟨idyns, hitems, hfitems⟩ :=
      decodeItems_encode gen now pl.items (k + 1) fun x hx => hwf.2 x hx
    obtain ⟨pdyns, k2, hrest, hfrest⟩ :=
      ih (k + 1 + pl.items.length) fun x hx => h x (by simp [hx])
    have harr : jsOrJ (getField? (JValue.obj [("n", JValue.str pl.name),
        ("c", JValue.num pl.createdAt),
        ("i", JValue.arr (pl.items.map (encodeItemJ false)))]) "i") (JValue.arr [])
        = JValue.arr (pl.items.map (encodeItemJ false)) := by
      simp [getField?, List.find?, jsOrJ, truthyJ]
    have hstep := decodePlaylistsJS_cons_obj gen now k
      [("n", JValue.str pl.name), ("c", JValue.num pl.createdAt),
        ("i", JValue.arr (pl.items.map (encodeItemJ false)))]
      (rest.map (encodePlaylistJ false)) (pl.items.map (encodeItemJ false)) harr
      idyns (k + 1 + pl.items.length) hitems pdyns k2 hrest
    refine ⟨({ id := gen k
               name := jsOrJ (getField? (JValue.obj [("n", JValue.str pl.name),
                 ("c", JValue.num pl.createdAt),
                 ("i", JValue.arr (pl.items.map (encodeItemJ false)))]) "n")
                 (JValue.str "가져온 목록")
               createdAt := jsOrJ (getField? (JValue.obj [("n", JValue.str pl.name),
                 ("c", JValue.num pl.createdAt),
                 ("i", JValue.arr (pl.items.map (encodeItemJ false)))]) "c")
                 (JValue.num now)
               items := idyns } : DynPlaylist) :: pdyns, k2, ?_, ?_⟩
    · rw [List.map_cons,
        show encodePlaylistJ false pl = JValue.obj [("n", JValue.str pl.name),
          ("c", JValue.num pl.createdAt),
          ("i", JValue.arr (pl.items.map (encodeItemJ false)))] from rfl]
      exact hstep
    · refine List.Forall₂.cons ⟨?_, ?_⟩ hfrest
      · show jsOrJ (getField? (JValue.obj [("n", JValue.str pl.name),
          ("c", JValue.num pl.createdAt),
          ("i", JValue.arr (pl.items.map (encodeItemJ false)))]) "n")
            (JValue.str "가져온 목록") = JValue.str pl.name
        rw [show getField? (JValue.obj [("n", JValue.str pl.name),
          ("c", JValue.num pl.createdAt),
          ("i", JValue.arr (pl.items.map (encodeItemJ false)))]) "n"
            = some (JValue.str pl.name) by simp [getField?, List.find?]]
        exact jsOrJ_str_ne _ hwf.1
      · exact hfitems

/- =============== Claim C4 =============== -/

/-- C4 (amended): decoding the encoding of a well-formed state (nonzero
`addedAt`, no present-but-empty `videoId`, nonempty playlist names, and
no falsy `title` shadowed by a truthy `sourceTitle`), with platform
codecs that round-trip at the values involved, reproduces the playlists
in order, content-equal on url, videoId, title, tags and addedAt, with
every thumbnail absent (the encode call does not set
`includeThumbnails`), up to freshly minted identifiers. -/
theorem decode_encode_roundtrip
    (C : Codecs) (gen : Nat → String) (now : Nat) (state : StoredStateV1)
    (hwf : ∀ pl ∈ state.playlists, wfPlaylist pl)
    (hjson : C.parse (C.stringify (sharePayload false state.playlists))
      = some (sharePayload false state.playlists))
    (hutf8 : C.utf8Decode (C.utf8Encode (C.stringify (sharePayload false state.playlists)))
      = C.stringify (sharePayload false state.playlists))
    (hpako : C.inflateRaw (C.deflateRaw (C.utf8Encode (C.stringify
        (sharePayload false state.playlists))))
      = some (C.utf8Encode (C.stringify (sharePayload false state.playlists))))
    (hbytes : ∀ b ∈ C.deflateRaw (C.utf8Encode (C.stringify
        (sharePayload false state.playlists))), b < 256)
    (hbne : C.deflateRaw (C.utf8Encode (C.stringify
        (sharePayload false state.playlists))) ≠ []) :
    ∃ st : DynState,
      decodeShareToState C gen now (encodeShareFromState C state { scope := some "all" })
        = .ok st ∧
      List.Forall₂ playlistRoundTrip state.playlists st.playlists := by
  have henc : encodeShareFromState C state { scope := some "all" }
      = "v1." ++ String.mk (base64UrlEncode (C.deflateRaw (C.utf8Encode (C.stringify
          (sharePayload false state.playlists))))) := rfl
  obtain ⟨dyns, k', hdec, hfor⟩ := decodePlaylists_encode gen now state.playlists 0 hwf
  have hv : getField? (sharePayload false state.playlists) "v" = some (JValue.num 1) := by
    simp [sharePayload, getField?, List.find?]
  have hp : getField? (sharePayload false state.playlists) "p"
      = some (JValue.arr (state.playlists.map (encodePlaylistJ false))) := by
    simp [sharePayload, getField?, List.find?]
  rw [henc]
  unfold decodeShareToState
  rw [tokenBody_encode _ hbytes hbne]
  dsimp only
  rw [base64url_roundtrip _ hbytes]
  dsimp only
  rw [hpako]
  dsimp only
  rw [hutf8, hjson]
  dsimp only
  rw [show truthyJ (some (sharePayload false state.playlists)) = true from rfl]
  simp only [Bool.not_true, Bool.false_eq_true, if_false]
  rw [hv, hp]
  dsimp only
  rw [hdec]
  dsimp only
  refine ⟨_, rfl, ?_⟩
  rcases dyns with _ | ⟨d, ds⟩
  · simpa using hfor
  · simpa using hfor

theorem decode_encode_roundtrip_witness :
    ∃ st, decodeShareToState cxCodecsC4w cxGen 123
        (encodeShareFromState cxCodecsC4w stAB { scope := some "all" }) = .ok st ∧
      List.Forall₂ playlistRoundTrip stAB.playlists st.playlists :=
  decode_encode_roundtrip cxCodecsC4w cxGen 123 stAB
    (by decide) (by rfl) (by rfl) (by rfl) (by decide) (by decide)

/-- C4 counterexample: the claim quantifies over every state, but an
item with `addedAt = 0` (a falsy JS number) is restored with the
decode-time clock value, so the decoded `addedAt` differs from the
original — the round-trip is not content-equal on `addedAt` for that
state. -/
theorem decode_encode_addedAtZero_cx :
    (stC4bad.playlists.map fun pl => pl.items.map fun it => it.addedAt) = [[0]] ∧
    ∃ st, decodeShareToState cxCodecsC4 cxGen 999
        (encodeShareFromState cxCodecsC4 stC4bad { scope := some "all" }) = .ok st ∧
      (st.playlists.map fun pl => pl.items.map fun it => it.addedAt)
        = [[JValue.num 999]] := by
  refine ⟨rfl, ⟨{ version := 1
                  selectedPlaylistId := cxGen 0
                  playlists := [{ id := cxGen 0
                                  name := JValue.str "N"
                                  createdAt := JValue.num 1
                                  items := [{ id := cxGen 1
                                              url := some (JValue.str "u")
                                              videoId := none
                                              title := none
                                              thumbnailUrl := none
                                              tags := JValue.arr []
                                              addedAt := JValue.num 999 }] }] }, ?_, rfl⟩⟩
  rfl

/- =============== Claim C5 =============== -/

/-- C5 (amended): `decodeShareToState` raises exactly on: a missing or
malformed `v1.` prefix, a base64url decode failure, an inflate failure,
a JSON parse failure, a failed payload validation (falsy payload,
version discriminator not 1, or playlist list not an array), or a
dynamic type error while rebuilding (a null playlist entry, a truthy
non-array item list, or a null item entry).  A token whose playlist
list is empty after parsing decodes without error (the emptiness check
lives in the import modal, not in `decodeShareToState`). -/
theorem decodeShareToState_error_iff (C : Codecs) (gen : Nat → String) (now : Nat)
    (encoded : String) :
    (∃ e, decodeShareToState C gen now encoded = .error e) ↔
      decodeRaisesSpec C gen now encoded := by
  unfold decodeShareToState decodeRaisesSpec
  generalize tokenBody encoded = otok
  rcases otok with _ | data
  · simp
  · dsimp only
    generalize base64UrlDecode data = ob64
    rcases ob64 with _ | bytes
    · simp
    · dsimp only
      generalize C.inflateRaw bytes = oinf
      rcases oinf with _ | inflated
      · simp
      · dsimp only
        generalize C.parse (C.utf8Decode inflated) = opay
        rcases opay with _ | payload
        · simp
        · dsimp only
          by_cases htr : truthyJ (some payload) = true
          · simp only [htr, Bool.not_true, Bool.false_eq_true, if_false]
            split
            · rename_i plist heq1 heq2
              generalize decodePlaylistsJS gen now 0 plist = dp
              rcases dp with e | ⟨pls, k⟩
              · exact ⟨fun _ => Or.inr ⟨e, rfl⟩, fun _ => ⟨e, rfl⟩⟩
              · constructor
                · rintro ⟨e, he⟩
                  simp at he
                · rintro (hf | ⟨e, he⟩)
                  · simp at hf
                  · cases he
            · exact ⟨fun _ => trivial, fun _ => ⟨.invalid, rfl⟩⟩
          · have htr' : truthyJ (some payload) = false := by
              cases hx : truthyJ (some payload) with
              | true => exact absurd hx htr
              | false => rfl
            simp only [htr', Bool.not_false, eq_self_iff_true, if_true]
            split
            · exact ⟨fun _ => Or.inl trivial, fun _ => ⟨.invalid, rfl⟩⟩
            · exact ⟨fun _ => trivial, fun _ => ⟨.invalid, rfl⟩⟩

/-- C5 counterexample: a well-formed token whose parsed payload has an
empty playlist array — the claim says this raises an error, but
`decodeShareToState` returns normally with an empty playlist list. -/
theorem decode_emptyList_returns_ok_cx :
    decodeShareToState cxCodecsEmpty cxGen 999 "v1.Bw"
      = .ok { version := 1, selectedPlaylistId := cxGen 0, playlists := [] } := by
  rfl

/- =============== Claim C10 =============== -/

/-- C10: a well-formed token whose playlist list is empty decodes
normally into a state with an empty playlist list and a freshly minted
`selectedPlaylistId` that refers to no playlist — violating both
collection invariants. -/
theorem decode_emptyList_violates_invariant
    (C : Codecs) (gen : Nat → String) (now : Nat) (encoded : String) (data : List Char)
    (bytes inflated : List Nat)
    (htok : tokenBody encoded = some data)
    (hb64 : base64UrlDecode data = some bytes)
    (hinf : C.inflateRaw bytes = some inflated)
    (hparse : C.parse (C.utf8Decode inflated)
      = some (JValue.obj [("v", JValue.num 1), ("p", JValue.arr [])])) :
    decodeShareToState C gen now encoded
      = .ok { version := 1, selectedPlaylistId := gen 0, playlists := [] } ∧
    ¬ dynInvariant { version := 1, selectedPlaylistId := gen 0, playlists := [] } := by
  constructor
  · unfold decodeShareToState
    rw [htok]
    dsimp only
    rw [hb64]
    dsimp only
    rw [hinf]
    dsimp only
    rw [hparse]
    rfl
  · intro hinv
    exact hinv.1 rfl

theorem decode_emptyList_violates_invariant_witness :
    decodeShareToState cxCodecsEmpty cxGen 7 "v1.Bw"
      = .ok { version := 1, selectedPlaylistId := cxGen 0, playlists := [] } ∧
    ¬ dynInvariant { version := 1, selectedPlaylistId := cxGen 0, playlists := [] } :=
  decode_emptyList_violates_invariant cxCodecsEmpty cxGen 7 "v1.Bw" ("Bw".data) [7] [7]
    (by rfl) (by rfl) (by rfl) (by rfl)

/- =============== numeral rendering injectivity =============== -/

theorem valOfDigits_append_digit (l : List Char) (c : Char) :
    valOfDigits (l ++ [c]) = valOfDigits l * 10 + (c.toNat - 48) := by
  unfold valOfDigits
  rw [List.foldl_append]
  rfl

theorem valOf_natDigitsAux : ∀ (fuel n : Nat), n ≤ fuel →
    valOfDigits (natDigitsAux fuel n) = n := by
  intro fuel
  induction fuel with
  | zero =>
    intro n h
    have : n = 0 := Nat.le_zero.mp h
    subst this
    rfl
  | succ f ih =>
    intro n h
    by_cases hn : n = 0
    · subst hn
      rfl
    · rw [natDigitsAux, if_neg (by simpa using hn), valOfDigits_append_digit]
      have h10 : n / 10 ≤ f := by
        have hlt2 : n / 10 < n := Nat.div_lt_self (Nat.pos_of_ne_zero hn) (by omega)
        omega
      rw [ih (n / 10) h10]
      have hlt : n % 10 < 10 := Nat.mod_lt _ (by omega)
      have hd : ∀ d, d < 10 → (digitToChar d).toNat - 48 = d := by decide
      rw [hd _ hlt]
      omega

theorem jsNatToString_inj (m n : Nat) (h : jsNatToString m = jsNatToString n) : m = n := by
  unfold jsNatToString at h
  by_cases hm : m = 0 <;> by_cases hn : n = 0
  · omega
  · rw [if_pos (by simpa using hm), if_neg (by simpa using hn)] at h
    have hdata : ('0' :: []) = natDigitsAux (n + 1) n := congrArg String.data h
    have hv := valOf_natDigitsAux (n + 1) n (by omega)
    rw [← hdata] at hv
    have : valOfDigits ('0' :: []) = 0 := by decide
    omega
  · rw [if_neg (by simpa using hm), if_pos (by simpa using hn)] at h
    have hdata : natDigitsAux (m + 1) m = ('0' :: []) := congrArg String.data h
    have hv := valOf_natDigitsAux (m + 1) m (by omega)
    rw [hdata] at hv
    have : valOfDigits ('0' :: []) = 0 := by decide
    omega
  · rw [if_neg (by simpa using hm), if_neg (by simpa using hn)] at h
    have hdata : natDigitsAux (m + 1) m = natDigitsAux (n + 1) n := congrArg String.data h
    have h1 := valOf_natDigitsAux (m + 1) m (by omega)
    have h2 := valOf_natDigitsAux (n + 1) n (by omega)
    rw [hdata] at h1
    omega

theorem candName_inj (k : String) (i j : Nat) (h : candName k i = candName k j) : i = j := by
  unfold candName at h
  have hd := congrArg String.data h
  simp only [String.data_append, List.append_assoc] at hd
  have h1 := List.append_cancel_left hd
  have h2 := List.append_cancel_left h1
  have h3 := List.append_cancel_right h2
  exact jsNatToString_inj i j (String.ext h3)

/- =============== collision-loop characterization =============== -/

theorem firstFreeAux_spec (names : List String) (k : String) :
    ∀ (fuel i : Nat), (∃ j, j < fuel ∧ candName k (i + j) ∉ names) →
    candName k (firstFreeAux names k fuel i) ∉ names ∧
    i ≤ firstFreeAux names k fuel i ∧
    ∀ m, i ≤ m → m < firstFreeAux names k fuel i → candName k m ∈ names := by
  intro fuel
  induction fuel with
  | zero =>
    rintro i ⟨j, hj, _⟩
    omega
  | succ f ih =>
    rintro i ⟨j, hj, hfree⟩
    rw [firstFreeAux]
    by_cases hc : names.contains (candName k i) = true
    · rw [if_pos hc]
      have hmemi : candName k i ∈ names := by simpa using hc
      have hj' : ∃ j', j' < f ∧ candName k (i + 1 + j') ∉ names := by
        cases j with
        | zero => exact absurd (by simpa using hfree) (by simp [hmemi])
        | succ j' =>
          refine ⟨j', by omega, ?_⟩
          have : i + 1 + j' = i + (j' + 1) := by omega
          rw [this]
          exact hfree
      obtain ⟨hfree', hle, hmin⟩ := ih (i + 1) hj'
      refine ⟨hfree', by omega, ?_⟩
      intro m him hm
      by_cases hmi : m = i
      · subst hmi
        exact hmemi
      · exact hmin m (by omega) hm
    · rw [if_neg hc]
      refine ⟨by simpa using hc, Nat.le_refl _, ?_⟩
      intro m h1 h2
      omega

theorem firstFree_exists (names : List String) (k : String) :
    ∃ j, j < names.length + 1 ∧ candName k (2 + j) ∉ names := by
  by_contra hno
  push_neg at hno
  have hinj : Function.Injective (fun j => candName k (2 + j)) := by
    intro a b hab
    have := candName_inj k (2 + a) (2 + b) hab
    omega
  have hnd : ((List.range (names.length + 1)).map (fun j => candName k (2 + j))).Nodup :=
    (List.nodup_range _).map hinj
  have hsub : ∀ x ∈ (List.range (names.length + 1)).map (fun j => candName k (2 + j)),
      x ∈ names := by
    intro x hx
    obtain ⟨j, hj, rfl⟩ := List.mem_map.mp hx
    exact hno j (List.mem_range.mp hj)
  have hcard := List.toFinset_card_of_nodup hnd
  have hle : ((List.range (names.length + 1)).map
      (fun j => candName k (2 + j))).toFinset ⊆ names.toFinset := by
    intro x hx
    exact List.mem_toFinset.mpr (hsub x (List.mem_toFinset.mp hx))
  have hc1 := Finset.card_le_card hle
  have hc2 := List.toFinset_card_le names
  rw [hcard] at hc1
  simp at hc1
  omega

theorem renameAll_spec : ∀ (imported : List Playlist) (ns : List String),
    RenameSpec ns imported (renameAll ns imported) := by
  intro imported
  induction imported with
  | nil =>
    intro ns
    exact RenameSpec.nil ns
  | cons p rest ih =>
    intro ns
    rw [renameAll]
    unfold renamePlaylist
    dsimp only
    by_cases hc : ns.contains (normKey (if p.name == "" then "가져온 목록" else p.name)) = true
    · rw [if_pos hc]
      dsimp only
      obtain ⟨hfree, hge, hmin⟩ := firstFreeAux_spec ns
        (normKey (if p.name == "" then "가져온 목록" else p.name)) (ns.length + 1) 2
        (by
          obtain ⟨j, hj, hf⟩ := firstFree_exists ns
            (normKey (if p.name == "" then "가져온 목록" else p.name))
          exact ⟨j, hj, hf⟩)
      exact RenameSpec.rename ns p rest _ _ _ rfl (by simpa using hc) hge hfree hmin (ih _)
    · rw [if_neg hc]
      dsimp only
      exact RenameSpec.keep ns p rest _ _ rfl (by simpa using hc) (ih _)

/- =============== Claim C7 =============== -/

/-- C7 (amended): merge keeps every current playlist and appends every
imported playlist (fields unchanged except the name); an import whose
key (trimmed, lowercased name, after defaulting an empty name) is
already in the running set is renamed to base + " (i)" where i is the
least counter at least 2 whose probe string key + " (i)" is absent from
the running set — the probe uses the lowercased key, not the assigned
name, so uniqueness of the assigned name is guaranteed only when the
base name carries no edge whitespace; each processed playlist adds its
final key to the running set.  Importing "Music" alongside an existing
"Music" yields "Music (2)", and a third collision yields "Music (3)". -/
theorem mergeImport_rename_spec :
    (∀ current imported : List Playlist,
      mergeImportedPlaylists current imported
        = current ++ renameAll (current.map fun p => normKey p.name) imported ∧
      RenameSpec (current.map fun p => normKey p.name) imported
        (renameAll (current.map fun p => normKey p.name) imported)) ∧
    (mergeImportedPlaylists [mkPl "cur1" "Music"] [mkPl "imp1" "Music"]).map
        (fun p => p.name) = ["Music", "Music (2)"] ∧
    (mergeImportedPlaylists [mkPl "cur1" "Music", mkPl "cur2" "Music (2)"]
        [mkPl "imp1" "Music"]).map (fun p => p.name)
      = ["Music", "Music (2)", "Music (3)"] := by
  refine ⟨?_, by decide, by decide⟩
  intro current imported
  exact ⟨rfl, renameAll_spec imported (current.map fun p => normKey p.name)⟩

/-- C7 counterexample: current playlists "A" and "A  (2)" (two spaces),
imported playlist "A " (trailing space).  The import collides and the
counter loop probes "a (2)" (single space), which is free, so the
assigned name is "A " + " (2)" = "A  (2)" — whose trimmed-lowercased
key equals that of the existing playlist "A  (2)".  The assigned name
is therefore not unique against the running set, refuting the claimed
"incremented until the candidate name is unique". -/
theorem mergeImport_rename_not_unique_cx :
    (mergeImportedPlaylists [mkPl "c1" "A", mkPl "c2" "A  (2)"] [mkPl "i1" "A "]).map
        (fun p => p.name) = ["A", "A  (2)", "A  (2)"] ∧
    ¬ ((mergeImportedPlaylists [mkPl "c1" "A", mkPl "c2" "A  (2)"] [mkPl "i1" "A "]).map
        (fun p => normKey p.name)).Nodup := by
  exact ⟨by decide, by decide⟩

/- =============== trim idempotence =============== -/

theorem dropWhile_dropWhile (p : Char → Bool) (l : List Char) :
    (l.dropWhile p).dropWhile p = l.dropWhile p := by
  induction l with
  | nil => rfl
  | cons a t ih =>
    by_cases h : p a
    · rw [List.dropWhile_cons, if_pos h, ih]
    · rw [List.dropWhile_cons, if_neg h, List.dropWhile_cons, if_neg h]

theorem dropWhile_length_le (p : Char → Bool) (l : List Char) :
    (l.dropWhile p).length ≤ l.length := by
  induction l with
  | nil => exact Nat.le_refl _
  | cons a t ih =>
    rw [List.dropWhile_cons]
    by_cases h : p a
    · rw [if_pos h]
      exact Nat.le_succ_of_le ih
    · rw [if_neg h]

theorem dropWhile_rtrim (p : Char → Bool) (m : List Char) (hm : m.dropWhile p = m) :
    ((m.reverse.dropWhile p).reverse).dropWhile p = (m.reverse.dropWhile p).reverse := by
  cases m with
  | nil => rfl
  | cons a t =>
    have hpa : p a = false := by
      by_cases hx : p a
      · rw [List.dropWhile_cons, if_pos hx] at hm
        have hlen := congrArg List.length hm
        have hle := dropWhile_length_le p t
        simp at hlen
        omega
      · simpa using hx
    rw [List.reverse_cons, List.dropWhile_append]
    by_cases he : (t.reverse.dropWhile p).isEmpty
    · simp only [he, if_true]
      simp [List.dropWhile_cons, hpa]
    · simp only [he, Bool.false_eq_true, if_false]
      simp [List.reverse_append, List.dropWhile_cons, hpa]

theorem trimChars_idem (l : List Char) : trimChars (trimChars l) = trimChars l := by
  unfold trimChars
  rw [dropWhile_rtrim jsWhitespace (l.dropWhile jsWhitespace)
    (dropWhile_dropWhile jsWhitespace l)]
  rw [List.reverse_reverse, dropWhile_dropWhile]

theorem jsTrim_idem (s : String) : jsTrim (jsTrim s) = jsTrim s := by
  unfold jsTrim
  show String.mk (trimChars (trimChars s.data)) = String.mk (trimChars s.data)
  rw [trimChars_idem]

/- =============== parameter-cleaning fold lemmas =============== -/

theorem cleanStep_pos {Rep : Type} (L : URLLib Rep) (c : Rep) (k : String)
    (h : keepParams.contains k = true) : cleanStep L c k = c := by
  unfold cleanStep
  rw [if_pos h]

theorem cleanStep_neg {Rep : Type} (L : URLLib Rep) (c : Rep) (k : String)
    (h : ¬ keepParams.contains k = true) : cleanStep L c k = L.deleteParam c k := by
  unfold cleanStep
  rw [if_neg h]

theorem cleanFold_hostname {Rep : Type} (L : URLLib Rep)
    (L4 : ∀ (u : Rep) (k : String),
      L.hostname (L.deleteParam u k) = L.hostname u ∧
      L.pathname (L.deleteParam u k) = L.pathname u ∧
      L.paramKeys (L.deleteParam u k) = (L.paramKeys u).filter (fun k2 => k2 != k) ∧
      ∀ k2, k2 ≠ k → L.getParam (L.deleteParam u k) k2 = L.getParam u k2) :
    ∀ (l : List String) (c : Rep), L.hostname (l.foldl (cleanStep L) c) = L.hostname c := by
  intro l
  induction l with
  | nil => intro c; rfl
  | cons k t ih =>
    intro c
    rw [List.foldl_cons, ih (cleanStep L c k)]
    by_cases hk : keepParams.contains k = true
    · rw [cleanStep_pos L c k hk]
    · rw [cleanStep_neg L c k hk, (L4 c k).1]

theorem cleanFold_pathname {Rep : Type} (L : URLLib Rep)
    (L4 : ∀ (u : Rep) (k : String),
      L.hostname (L.deleteParam u k) = L.hostname u ∧
      L.pathname (L.deleteParam u k) = L.pathname u ∧
      L.paramKeys (L.deleteParam u k) = (L.paramKeys u).filter (fun k2 => k2 != k) ∧
      ∀ k2, k2 ≠ k → L.getParam (L.deleteParam u k) k2 = L.getParam u k2) :
    ∀ (l : List String) (c : Rep), L.pathname (l.foldl (cleanStep L) c) = L.pathname c := by
  intro l
  induction l with
  | nil => intro c; rfl
  | cons k t ih =>
    intro c
    rw [List.foldl_cons, ih (cleanStep L c k)]
    by_cases hk : keepParams.contains k = true
    · rw [cleanStep_pos L c k hk]
    · rw [cleanStep_neg L c k hk, (L4 c k).2.1]

theorem cleanFold_getParam {Rep : Type} (L : URLLib Rep)
    (L4 : ∀ (u : Rep) (k : String),
      L.hostname (L.deleteParam u k) = L.hostname u ∧
      L.pathname (L.deleteParam u k) = L.pathname u ∧
      L.paramKeys (L.deleteParam u k) = (L.paramKeys u).filter (fun k2 => k2 != k) ∧
      ∀ k2, k2 ≠ k → L.getParam (L.deleteParam u k) k2 = L.getParam u k2)
    (k0 : String) (hk0 : keepParams.contains k0 = true) :
    ∀ (l : List String) (c : Rep),
      L.getParam (l.foldl (cleanStep L) c) k0 = L.getParam c k0 := by
  intro l
  induction l with
  | nil => intro c; rfl
  | cons k t ih =>
    intro c
    rw [List.foldl_cons, ih (cleanStep L c k)]
    by_cases hk : keepParams.contains k = true
    · rw [cleanStep_pos L c k hk]
    · rw [cleanStep_neg L c k hk]
      refine (L4 c k).2.2.2 k0 ?_
      intro hx
      subst hx
      exact hk hk0

theorem cleanFold_keys {Rep : Type} (L : URLLib Rep)
    (L4 : ∀ (u : Rep) (k : String),
      L.hostname (L.deleteParam u k) = L.hostname u ∧
      L.pathname (L.deleteParam u k) = L.pathname u ∧
      L.paramKeys (L.deleteParam u k) = (L.paramKeys u).filter (fun k2 => k2 != k) ∧
      ∀ k2, k2 ≠ k → L.getParam (L.deleteParam u k) k2 = L.getParam u k2) :
    ∀ (l : List String) (c : Rep) (k0 : String),
      k0 ∈ L.paramKeys (l.foldl (cleanStep L) c) →
      keepParams.contains k0 = true ∨ (k0 ∈ L.paramKeys c ∧ k0 ∉ l) := by
  intro l
  induction l with
  | nil =>
    intro c k0 hk0
    exact Or.inr ⟨hk0, by simp⟩
  | cons k t ih =>
    intro c k0 hk0
    rw [List.foldl_cons] at hk0
    by_cases hk : keepParams.contains k = true
    · rw [cleanStep_pos L c k hk] at hk0
      rcases ih c k0 hk0 with h | ⟨hmem, hnot⟩
      · exact Or.inl h
      · by_cases hke : k0 = k
        · subst hke
          exact Or.inl hk
        · exact Or.inr ⟨hmem, by simp [hke, hnot]⟩
    · rw [cleanStep_neg L c k hk] at hk0
      rcases ih (L.deleteParam c k) k0 hk0 with h | ⟨hmem, hnot⟩
      · exact Or.inl h
      · rw [(L4 c k).2.2.1] at hmem
        have hmf := List.mem_filter.mp hmem
        have hne : k0 ≠ k := by simpa using hmf.2
        exact Or.inr ⟨hmf.1, by simp [hne, hnot]⟩

theorem cleanFold_nochange {Rep : Type} (L : URLLib Rep) :
    ∀ (l : List String) (c : Rep), (∀ k ∈ l, keepParams.contains k = true) →
      l.foldl (cleanStep L) c = c := by
  intro l
  induction l with
  | nil => intro c _; rfl
  | cons k t ih =>
    intro c h
    rw [List.foldl_cons, cleanStep_pos L c k (h k (by simp))]
    exact ih c fun x hx => h x (by simp [hx])

/- =============== Claim C9 =============== -/

/-- C9: the URL normalizer is idempotent — normalizing the url
component of a normalization result reproduces the same url and the
same videoId.  The platform `URL` class enters as an injected library
assumed to: serialize without surrounding whitespace (L1), successfully
reparse its own serialization (L2) with unchanged observations and a
stable serialization (L3), and delete query parameters without touching
the host, path or the other parameters (L4). -/
theorem normalizeYouTubeUrl_idempotent {Rep : Type} (L : URLLib Rep)
    (L1 : ∀ u : Rep, jsTrim (L.href u) = L.href u)
    (L2 : ∀ u : Rep, ∃ u', L.parse (L.href u) = some u')
    (L3 : ∀ u u' : Rep, L.parse (L.href u) = some u' →
      L.hostname u' = L.hostname u ∧ L.pathname u' = L.pathname u ∧
      (∀ k, L.getParam u' k = L.getParam u k) ∧ L.paramKeys u' = L.paramKeys u ∧
      L.href u' = L.href u)
    (L4 : ∀ (u : Rep) (k : String),
      L.hostname (L.deleteParam u k) = L.hostname u ∧
      L.pathname (L.deleteParam u k) = L.pathname u ∧
      L.paramKeys (L.deleteParam u k) = (L.paramKeys u).filter (fun k2 => k2 != k) ∧
      ∀ k2, k2 ≠ k → L.getParam (L.deleteParam u k) k2 = L.getParam u k2)
    (input : String) :
    normalizeYouTubeUrl L (normalizeYouTubeUrl L input).1
      = normalizeYouTubeUrl L input := by
  rcases hp : L.parse (jsTrim input) with _ | url
  · have h1 : normalizeYouTubeUrl L input = (jsTrim input, none) := by
      unfold normalizeYouTubeUrl
      dsimp only
      rw [hp]
    rw [h1]
    unfold normalizeYouTubeUrl
    dsimp only
    rw [jsTrim_idem, hp]
  · obtain ⟨c0, hc0⟩ := L2 url
    obtain ⟨h0host, h0path, h0get, h0keys, h0href⟩ := L3 url c0 hc0
    have h1 : normalizeYouTubeUrl L input
        = (L.href ((L.paramKeys c0).foldl (cleanStep L) c0),
           extractVideoId (stripWww (L.hostname url)) (L.pathname url)
             (L.getParam url "v")) := by
      unfold normalizeYouTubeUrl
      dsimp only
      rw [hp]
      dsimp only
      rw [hc0]
    rw [h1]
    obtain ⟨u2, hu2⟩ := L2 ((L.paramKeys c0).foldl (cleanStep L) c0)
    obtain ⟨h2host, h2path, h2get, h2keys, h2href⟩ :=
      L3 ((L.paramKeys c0).foldl (cleanStep L) c0) u2 hu2
    unfold normalizeYouTubeUrl
    dsimp only
    rw [L1 ((L.paramKeys c0).foldl (cleanStep L) c0), hu2]
    dsimp only
    rw [h2href, hu2]
    dsimp only
    have hkeysall : ∀ k ∈ L.paramKeys u2, keepParams.contains k = true := by
      rw [h2keys]
      intro k hk
      rcases cleanFold_keys L L4 (L.paramKeys c0) c0 k hk with h | ⟨hmem, habs⟩
      · exact h
      · exact absurd hmem habs
    rw [cleanFold_nochange L (L.paramKeys u2) u2 hkeysall]
    have hvid : extractVideoId (stripWww (L.hostname u2)) (L.pathname u2)
        (L.getParam u2 "v")
        = extractVideoId (stripWww (L.hostname url)) (L.pathname url)
          (L.getParam url "v") := by
      rw [h2host, h2path, h2get "v"]
      rw [cleanFold_hostname L L4 (L.paramKeys c0) c0,
        cleanFold_pathname L L4 (L.paramKeys c0) c0,
        cleanFold_getParam L L4 "v" (by decide) (L.paramKeys c0) c0]
      rw [h0host, h0path, h0get "v"]
    rw [hvid, h2href]

theorem normalizeYouTubeUrl_idempotent_witness :
    normalizeYouTubeUrl unitURLLib
        (normalizeYouTubeUrl unitURLLib "  https://example.com/a?b=1  ").1
      = normalizeYouTubeUrl unitURLLib "  https://example.com/a?b=1  " :=
  normalizeYouTubeUrl_idempotent unitURLLib
    (fun _ => rfl)
    (fun _ => ⟨(), rfl⟩)
    (fun _ _ _ => ⟨rfl, rfl, fun _ => rfl, rfl, rfl⟩)
    (fun _ _ => ⟨rfl, rfl, rfl, fun _ _ => rfl⟩)
    "  https://example.com/a?b=1  "

end AgentDemo
